import Mathlib

/-!
# A verification development for the GEDCOM person/family ingestion and validation core

This file gives a shallow embedding of the two builder state machines
(`people.py` / `families.py`) and their validation rules, and proves the
specified properties about them.

Conventions of the embedding:
* Python `dict`s (insertion ordered) become association lists
  `List (String × α)`; `dict.setdefault` keeps the first binding.
* The "current entity" reference of each builder is a `CurrRef`:
  `stored k` means the current object is aliased with the map entry at key
  `k` (mutations write through), `detached r` means the current object is a
  fresh object that is not in the map (mutations are invisible to the map).
* Exceptions become `Except`; ingestion errors carry the state at the point
  of the raise, mirroring the partially mutated object a caller observes.
* `datetime` values become `Date` records; `datetime` comparison on dates is
  lexicographic on (year, month, day); elapsed days use a proleptic
  Gregorian day number (`rataDie`).
-/

/-- A calendar date as produced by the fixed day/abbreviated-month/4-digit-year
date grammar. -/
structure Date where
  year : Nat
  month : Nat
  day : Nat
deriving DecidableEq, Repr

/-- Chronological strict order on dates: lexicographic on (year, month, day),
matching Python `datetime` comparison for valid dates. -/
def Date.lt (a b : Date) : Bool :=
  if a.year ≠ b.year then decide (a.year < b.year)
  else if a.month ≠ b.month then decide (a.month < b.month)
  else decide (a.day < b.day)

/-- Gregorian leap-year test. -/
def isLeapYear (y : Nat) : Bool :=
  y % 4 == 0 && (y % 100 != 0 || y % 400 == 0)

/-- Number of days in a month of a given year. -/
def daysInMonth (y m : Nat) : Nat :=
  if m = 2 then (if isLeapYear y then 29 else 28)
  else if m = 4 ∨ m = 6 ∨ m = 9 ∨ m = 11 then 30
  else 31

/-- Proleptic Gregorian day number of a date (monotone in chronological
order); differences of `rataDie` values are the `timedelta.days` elapsed
between two dates. -/
def rataDie (dt : Date) : Nat :=
  let y := if dt.month ≤ 2 then dt.year - 1 else dt.year
  let era := y / 400
  let yoe := y % 400
  let mp := (dt.month + 9) % 12
  let doy := (153 * mp + 2) / 5 + (dt.day - 1)
  let doe := yoe * 365 + yoe / 4 - yoe / 100 + doy
  era * 146097 + doe

/-- Splitting a character list on the space separator (the list-level
rendering of splitting the argument string on spaces). -/
def splitOnSpace : List Char → List (List Char)
  | [] => [[]]
  | c :: rest =>
    match splitOnSpace rest with
    | [] => [[]]
    | cur :: done =>
      if c = ' ' then [] :: cur :: done else (c :: cur) :: done

/-- A nonempty all-digit character list read as a decimal numeral. -/
def charsToNat (cs : List Char) : Option Nat :=
  if cs ≠ [] ∧ cs.all Char.isDigit then
    some (cs.foldl (fun n c => n * 10 + (c.toNat - 48)) 0)
  else none

/-- Month number of an (already uppercased) abbreviated month name. -/
def monthOfAbbrev (u : String) : Option Nat :=
  if u = "JAN" then some 1
  else if u = "FEB" then some 2
  else if u = "MAR" then some 3
  else if u = "APR" then some 4
  else if u = "MAY" then some 5
  else if u = "JUN" then some 6
  else if u = "JUL" then some 7
  else if u = "AUG" then some 8
  else if u = "SEP" then some 9
  else if u = "OCT" then some 10
  else if u = "NOV" then some 11
  else if u = "DEC" then some 12
  else none

/-- The fixed date grammar (external collaborator `strptime` with format
day, abbreviated month, 4-digit year, month names matched
case-insensitively): `none` is a hard parse failure. -/
def parseDate (s : String) : Option Date :=
  match splitOnSpace s.data with
  | [dcs, mcs, ycs] =>
    match charsToNat dcs, monthOfAbbrev (String.mk (mcs.map Char.toUpper)),
        charsToNat ycs with
    | some d, some m, some y =>
      if dcs.length ≤ 2 ∧ ycs.length = 4 ∧ 1 ≤ y ∧ 1 ≤ d ∧ d ≤ daysInMonth y m
      then some ⟨y, m, d⟩ else none
    | _, _, _ => none
  | _ => none

/-- Derived age in whole years for an elapsed number of days, using the fixed
year length of 365.2425 days, truncated toward zero:
`trunc (days / 365.2425) = tdiv (days * 10000) 3652425`. -/
def ageFromDays (days : Int) : Int :=
  Int.tdiv (days * 10000) 3652425

/-- One leveled tag record of the input stream (the line record source is
external; it supplies level, tag, argument and the validity flag, with
`valid = "N"` marking a malformed record). -/
structure Record where
  level : Nat
  tag : String
  args : String
  valid : String
deriving DecidableEq, Repr

/-- The error kinds an ingestion or validation call can raise.
`malformed` is the `ValueError` raised for a record whose validity flag is
`"N"`; `dateFormat` a date-grammar parse failure; `keyErr` a missing
dictionary key; `typeErr` an operation on `None` (such as item assignment or
an order comparison); `attrErr` an attribute access on `None`. -/
inductive Err where
  | malformed
  | dateFormat
  | keyErr
  | typeErr
  | attrErr
deriving DecidableEq, Repr

/-- Association-list lookup (Python dict access). -/
def alLookup {α : Type} (l : List (String × α)) (k : String) : Option α :=
  match l with
  | [] => none
  | (k0, v) :: rest => if k0 = k then some v else alLookup rest k

/-- Key membership in an association list. -/
def alHas {α : Type} (l : List (String × α)) (k : String) : Bool :=
  (alLookup l k).isSome

/-- Pointwise update of the value stored under a key. -/
def alUpdate {α : Type} (l : List (String × α)) (k : String) (g : α → α) :
    List (String × α) :=
  match l with
  | [] => []
  | (k0, v) :: rest =>
    if k0 = k then (k0, g v) :: alUpdate rest k g
    else (k0, v) :: alUpdate rest k g

/-- The keys, in insertion order. -/
def alKeys {α : Type} (l : List (String × α)) : List String :=
  l.map Prod.fst

/-- The builder's reference to its current entity: absent, aliased with the
map entry at a key, or a fresh object that the map does not contain. -/
inductive CurrRef (α : Type) where
  | none
  | stored (k : String)
  | detached (r : α)
deriving DecidableEq, Repr

/-- Modelled from the spec: the person entity of the missing `Person` class
(`person.py` is not part of the given sources).  Fields follow §3 of the
spec: identifier, name, gender code, optional birth/death dates, and the
family-identifier sets for child-of and spouse-of links (sets: insertion
deduplicates). -/
structure PersonRec where
  id : String
  name : String := ""
  gender : String := ""
  birth_date : Option Date := none
  death_date : Option Date := none
  child_of_families : List String := []
  spouse_of_families : List String := []
deriving DecidableEq, Repr

/-- Modelled from the spec: derived age of a person (missing `Person` class):
elapsed time in years from the birth date to the death date if dead, else to
the reference instant, with the fixed 365.2425-day year, truncated toward
zero; unknown when the birth date is unknown. -/
def PersonRec.get_age (p : PersonRec) (ref : Date) : Option Int :=
  match p.birth_date with
  | none => none
  | some b =>
    let stop := match p.death_date with
      | none => ref
      | some d => d
    some (ageFromDays ((rataDie stop : Int) - (rataDie b : Int)))

/-- Modelled from the spec: child-of family links form a set — appending an
identifier already present is a no-op. -/
def PersonRec.addChildOf (p : PersonRec) (fid : String) : PersonRec :=
  if fid ∈ p.child_of_families then p
  else { p with child_of_families := p.child_of_families ++ [fid] }

/-- Modelled from the spec: spouse-of family links form a set. -/
def PersonRec.addSpouseOf (p : PersonRec) (fid : String) : PersonRec :=
  if fid ∈ p.spouse_of_families then p
  else { p with spouse_of_families := p.spouse_of_families ++ [fid] }

/-- The family entity (`families.py` stores these as dicts keyed by
identifier).  `married`/`divorced` flags are set independently of the dates
being known. -/
structure FamRec where
  id : String
  children : List String := []
  husband_id : Option String := none
  wife_id : Option String := none
  married_date : Option Date := none
  divorced_date : Option Date := none
  married : Bool := false
  divorced : Bool := false
deriving DecidableEq, Repr

/-- A structured finding appended to the message sink (modelled from the
spec's §3 `Finding` and the shape `ValidationMessages.add_message` receives:
category, rule id, subject id, subject name, message). -/
structure Finding where
  error_id : String
  user_story : String
  user_id : String
  name : String
  message : String
deriving DecidableEq, Repr

/-- State of the person builder: the individuals map, the current-person
reference, and the remembered subordinate context. -/
structure PeopleState where
  individuals : List (String × PersonRec)
  curr : CurrRef PersonRec
  ctx : Option String
deriving DecidableEq, Repr

/-- The empty person builder. -/
def initPeople : PeopleState :=
  { individuals := [], curr := .none, ctx := none }

/-- The current person object, if any. -/
def PeopleState.getCurr (s : PeopleState) : Option PersonRec :=
  match s.curr with
  | .none => none
  | .stored k => alLookup s.individuals k
  | .detached r => some r

/-- Mutate the current person; a `stored` reference writes through to the
map entry (Python aliasing), a `detached` one mutates only the fresh
object.  `none` when there is no current person. -/
def PeopleState.mutateCurr (s : PeopleState) (g : PersonRec → PersonRec) :
    Option PeopleState :=
  match s.curr with
  | .none => none
  | .stored k => some { s with individuals := alUpdate s.individuals k g }
  | .detached r => some { s with curr := .detached (g r) }

/-- Mutate the current person or raise `e` on `None`. -/
def PeopleState.mutateOrErr (s : PeopleState) (e : Err)
    (g : PersonRec → PersonRec) : Except (Err × PeopleState) PeopleState :=
  match s.mutateCurr g with
  | none => .error (e, s)
  | some s1 => .ok s1

/-- State of the family builder: the families map, the current-family
reference, the remembered subordinate context, and the shared message sink
handle (the eager marriage check emits findings during ingestion). -/
structure FamiliesState where
  families : List (String × FamRec)
  curr : CurrRef FamRec
  ctx : Option String
  msgs : List Finding
deriving DecidableEq, Repr

/-- The empty family builder (with an empty sink). -/
def initFamilies : FamiliesState :=
  { families := [], curr := .none, ctx := none, msgs := [] }

/-- The current family object, if any. -/
def FamiliesState.getCurr (s : FamiliesState) : Option FamRec :=
  match s.curr with
  | .none => none
  | .stored k => alLookup s.families k
  | .detached r => some r

/-- Mutate the current family (write-through on `stored`). -/
def FamiliesState.mutateCurr (s : FamiliesState) (g : FamRec → FamRec) :
    Option FamiliesState :=
  match s.curr with
  | .none => none
  | .stored k => some { s with families := alUpdate s.families k g }
  | .detached r => some { s with curr := .detached (g r) }

/-- Mutate the current family or raise `e` on `None`. -/
def FamiliesState.mutateOrErr (s : FamiliesState) (e : Err)
    (g : FamRec → FamRec) : Except (Err × FamiliesState) FamiliesState :=
  match s.mutateCurr g with
  | none => .error (e, s)
  | some s1 => .ok s1

/-- The `US02` finding the eager marriage check emits for a spouse whose
birth date disqualifies the marriage date. -/
def us02Finding (p : PersonRec) : Finding :=
  { error_id := "INDIVIDUAL", user_story := "US02", user_id := p.id,
    name := p.name,
    message := "Birth date should occur before marriage of an individual" }

/-- `Families._is_valid_married_date`: look up the husband then the wife in
the person mapping and compare their birth dates with the proposed marriage
date; the husband is checked first and a husband failure short-circuits.
On failure one `US02` finding is produced and `false` returned; `true` means
the date may be stored.  A missing spouse slot or person raises `KeyError`;
an unknown birth date raises `TypeError` (comparison with `None`). -/
def isValidMarriedDate (ppl : List (String × PersonRec)) (f : FamRec)
    (md : Date) : Except Err (Bool × List Finding) :=
  match f.husband_id with
  | none => .error .keyErr
  | some hid =>
    match alLookup ppl hid with
    | none => .error .keyErr
    | some husb =>
      match husb.birth_date with
      | none => .error .typeErr
      | some hb =>
        if Date.lt md hb then .ok (false, [us02Finding husb])
        else
          match f.wife_id with
          | none => .error .keyErr
          | some wid =>
            match alLookup ppl wid with
            | none => .error .keyErr
            | some wife =>
              match wife.birth_date with
              | none => .error .typeErr
              | some wb =>
                if Date.lt md wb then .ok (false, [us02Finding wife])
                else .ok (true, [])

/-- `People.process_line_data`: one step of the person builder.  A record
with validity flag `"N"` raises before any mutation; a record whose level is
below 2 first clears the remembered context; then the tag is dispatched.
`INDI` creates-or-fetches (`dict.setdefault`) — when the identifier is
already present the fresh person becomes the current object but is not
stored.  `DATE` writes the birth (resp. death) date exactly when the context
is `BIRT` (resp. `DEAT`) and is otherwise a no-op. -/
def People.levelReset (s : PeopleState) (r : Record) : PeopleState :=
  if r.level < 2 then { s with ctx := none } else s

/-- One step of the person builder; `People.levelReset` is the
context-clearing rule applied first, the doc comment above it describes the
whole step. -/
def People.processLine (s0 : PeopleState) (r : Record) :
    Except (Err × PeopleState) PeopleState :=
  if r.valid = "N" then .error (.malformed, s0) else
  let s := People.levelReset s0 r
  if r.tag = "INDI" then
    let fresh : PersonRec := { id := r.args }
    if alHas s.individuals r.args then .ok { s with curr := .detached fresh }
    else .ok { s with individuals := s.individuals ++ [(r.args, fresh)],
                      curr := .stored r.args }
  else if r.tag = "SEX" then
    match s.mutateOrErr .attrErr (fun p => { p with gender := r.args }) with
    | .error es => .error es
    | .ok s1 => .ok { s1 with ctx := some "SEX" }
  else if r.tag = "BIRT" then .ok { s with ctx := some "BIRT" }
  else if r.tag = "DEAT" then .ok { s with ctx := some "DEAT" }
  else if r.tag = "FAMC" then
    match s.mutateOrErr .attrErr (fun p => p.addChildOf r.args) with
    | .error es => .error es
    | .ok s1 => .ok { s1 with ctx := some "FAMC" }
  else if r.tag = "FAMS" then
    match s.mutateOrErr .attrErr (fun p => p.addSpouseOf r.args) with
    | .error es => .error es
    | .ok s1 => .ok { s1 with ctx := some "FAMS" }
  else if r.tag = "NAME" then
    match s.mutateOrErr .attrErr (fun p => { p with name := r.args }) with
    | .error es => .error es
    | .ok s1 => .ok { s1 with ctx := some "NAME" }
  else if r.tag = "DATE" then
    if s.ctx = some "BIRT" then
      match s.curr with
      | .none => .error (.attrErr, s)
      | _ =>
        match parseDate r.args with
        | none => .error (.dateFormat, s)
        | some d => s.mutateOrErr .attrErr (fun p => { p with birth_date := some d })
    else if s.ctx = some "DEAT" then
      match s.curr with
      | .none => .error (.attrErr, s)
      | _ =>
        match parseDate r.args with
        | none => .error (.dateFormat, s)
        | some d => s.mutateOrErr .attrErr (fun p => { p with death_date := some d })
    else .ok s
  else .ok s

/-- `Families.process_line_data`: one step of the family builder over a
read handle to the person mapping.  Mirrors the person builder; `MARR` sets
the married flag and resets the stored marriage date, `DIV` does the same
for divorce; a `DATE` record is always parsed first, then under `MARR`
context the marriage date is stored only if the eager check passes (the
check's findings are appended to the sink either way), and under `DIV`
context the divorce date is stored unconditionally. -/
def Families.levelReset (s : FamiliesState) (r : Record) : FamiliesState :=
  if r.level < 2 then { s with ctx := none } else s

/-- The `DATE`-record handling of the family builder, after the date
argument has been parsed: under `MARR` context the eager check runs against
the current family and the person mapping (its findings are appended to the
sink either way) and the marriage date is stored only on a pass; under
`DIV` context the divorce date is stored unconditionally; under any other
context nothing happens. -/
def Families.dateStep (ppl : List (String × PersonRec)) (s : FamiliesState)
    (d : Date) : Except (Err × FamiliesState) FamiliesState :=
  if s.ctx = some "MARR" then
    match s.getCurr with
    | none => .error (.typeErr, s)
    | some f =>
      match isValidMarriedDate ppl f d with
      | .error e => .error (e, s)
      | .ok (pass, newMsgs) =>
        let s1 := { s with msgs := s.msgs ++ newMsgs }
        if pass then
          s1.mutateOrErr .typeErr (fun fr => { fr with married_date := some d })
        else .ok s1
  else if s.ctx = some "DIV" then
    s.mutateOrErr .typeErr (fun fr => { fr with divorced_date := some d })
  else .ok s

/-- One step of the family builder; `Families.levelReset` is the
context-clearing rule applied first, the doc comment above it describes the
whole step. -/
def Families.processLine (ppl : List (String × PersonRec))
    (s0 : FamiliesState) (r : Record) :
    Except (Err × FamiliesState) FamiliesState :=
  if r.valid = "N" then .error (.malformed, s0) else
  let s := Families.levelReset s0 r
  if r.tag = "FAM" then
    let fresh : FamRec := { id := r.args }
    if alHas s.families r.args then .ok { s with curr := .detached fresh }
    else .ok { s with families := s.families ++ [(r.args, fresh)],
                      curr := .stored r.args }
  else if r.tag = "MARR" then
    match s.mutateOrErr .typeErr
        (fun f => { f with married := true, married_date := none }) with
    | .error es => .error es
    | .ok s1 => .ok { s1 with ctx := some "MARR" }
  else if r.tag = "DIV" then
    match s.mutateOrErr .typeErr
        (fun f => { f with divorced := true, divorced_date := none }) with
    | .error es => .error es
    | .ok s1 => .ok { s1 with ctx := some "DIV" }
  else if r.tag = "HUSB" then
    match s.mutateOrErr .typeErr (fun f => { f with husband_id := some r.args }) with
    | .error es => .error es
    | .ok s1 => .ok { s1 with ctx := some "HUSB" }
  else if r.tag = "WIFE" then
    match s.mutateOrErr .typeErr (fun f => { f with wife_id := some r.args }) with
    | .error es => .error es
    | .ok s1 => .ok { s1 with ctx := some "WIFE" }
  else if r.tag = "CHIL" then
    match s.mutateOrErr .typeErr
        (fun f => { f with children := f.children ++ [r.args] }) with
    | .error es => .error es
    | .ok s1 => .ok { s1 with ctx := some "CHIL" }
  else if r.tag = "DATE" then
    match parseDate r.args with
    | none => .error (.dateFormat, s)
    | some d => Families.dateStep ppl s d
  else .ok s

/-! ## Validation rules -/

/-- `People._is_valid_birth_date` (`US03`): a finding when both dates are
set and the death date precedes the birth date. -/
def birthBeforeDeathRule (p : PersonRec) : List Finding :=
  match p.birth_date, p.death_date with
  | some b, some d =>
    if Date.lt d b then
      [{ error_id := "INDIVIDUAL", user_story := "US03", user_id := p.id,
         name := p.name,
         message := "Birth date should occur before death of an individual" }]
    else []
  | _, _ => []

/-- `People._is_valid_age` (`US07`): a finding when the derived age is known
and strictly greater than 149. -/
def ageBoundRule (ref : Date) (p : PersonRec) : List Finding :=
  match p.get_age ref with
  | none => []
  | some a =>
    if a > 149 then
      [{ error_id := "INDIVIDUAL", user_story := "US07", user_id := p.id,
         name := p.name, message := "Age should be less than 150" }]
    else []

/-- `People._is_valid_birth_current_dates` (`US01`): a finding when the birth
date lies after the engine's fixed reference instant. -/
def birthNotFutureRule (ref : Date) (p : PersonRec) : List Finding :=
  match p.birth_date with
  | none => []
  | some b =>
    if Date.lt ref b then
      [{ error_id := "INDIVIDUAL", user_story := "US01", user_id := p.id,
         name := p.name,
         message := "Birth date should occur before current date" }]
    else []

/-- `People._is_valid_death_current_dates` (`US01`): the same check against
the death date. -/
def deathNotFutureRule (ref : Date) (p : PersonRec) : List Finding :=
  match p.death_date with
  | none => []
  | some d =>
    if Date.lt ref d then
      [{ error_id := "INDIVIDUAL", user_story := "US01", user_id := p.id,
         name := p.name,
         message := "Death date should occur before current date" }]
    else []

/-- `People._is_valid_sibling` (`US18`): a finding when the spouse-of and
child-of family-identifier sets are both nonempty and intersect. -/
def siblingMarriageRule (p : PersonRec) : List Finding :=
  if p.child_of_families ≠ [] ∧ p.spouse_of_families ≠ [] then
    if p.spouse_of_families.any (fun fid => fid ∈ p.child_of_families) then
      [{ error_id := "INDIVIDUAL", user_story := "US18", user_id := p.id,
         name := p.name, message := "Siblings should not marry" }]
    else []
  else []

/-- The `US26` finding for a spouse link with no corresponding family entry. -/
def us26SpouseFinding (p : PersonRec) (fid : String) : Finding :=
  { error_id := "INDIVIDUAL", user_story := "US26", user_id := p.id,
    name := p.name,
    message := "corresponding spouse link missing in family " ++ fid }

/-- The `US26` finding for a child link with no corresponding family entry. -/
def us26ChildFinding (p : PersonRec) (fid : String) : Finding :=
  { error_id := "INDIVIDUAL", user_story := "US26", user_id := p.id,
    name := p.name,
    message := "corresponding child link missing in family " ++ fid }

/-- The failure condition of a spouse link (`fam is None or husband and
wife slots both differ from the person's identifier`). -/
def spouseLinkBad (fams : List (String × FamRec)) (p : PersonRec)
    (fid : String) : Bool :=
  match alLookup fams fid with
  | none => true
  | some fam => decide (fam.husband_id ≠ some p.id ∧ fam.wife_id ≠ some p.id)

/-- The failure condition of a child link (`fam is None or the person's
identifier is not among the family's children`). -/
def childLinkBad (fams : List (String × FamRec)) (p : PersonRec)
    (fid : String) : Bool :=
  match alLookup fams fid with
  | none => true
  | some fam => decide (p.id ∉ fam.children)

/-- The spouse-link loop of `People._validate_corresponding_entries`: for
each claimed spouse-of family identifier, a finding unless the family exists
and records the person as husband or wife.  An unwired family mapping
(`None`) raises `AttributeError` at the first link. -/
def spouseLinkLoop (famsOpt : Option (List (String × FamRec)))
    (p : PersonRec) : List String → Except Err (List Finding)
  | [] => .ok []
  | fid :: rest =>
    match famsOpt with
    | none => .error .attrErr
    | some fams =>
      match spouseLinkLoop famsOpt p rest with
      | .error e => .error e
      | .ok ms =>
        .ok ((if spouseLinkBad fams p fid then [us26SpouseFinding p fid]
              else []) ++ ms)

/-- The child-link loop of `People._validate_corresponding_entries`: for each
claimed child-of family identifier, a finding unless the family exists and
its child sequence contains the person's identifier. -/
def childLinkLoop (famsOpt : Option (List (String × FamRec)))
    (p : PersonRec) : List String → Except Err (List Finding)
  | [] => .ok []
  | fid :: rest =>
    match famsOpt with
    | none => .error .attrErr
    | some fams =>
      match childLinkLoop famsOpt p rest with
      | .error e => .error e
      | .ok ms =>
        .ok ((if childLinkBad fams p fid then [us26ChildFinding p fid]
              else []) ++ ms)

/-- `People._validate_corresponding_entries` (`US26`): both link loops in
order (spouse links first, then child links). -/
def correspondingEntriesRule (famsOpt : Option (List (String × FamRec)))
    (p : PersonRec) : Except Err (List Finding) :=
  match spouseLinkLoop famsOpt p p.spouse_of_families with
  | .error e => .error e
  | .ok ms =>
    match childLinkLoop famsOpt p p.child_of_families with
    | .error e => .error e
    | .ok mc => .ok (ms ++ mc)

/-- The `US05` finding for a spouse who died before the marriage date. -/
def us05Finding (f : FamRec) (p : PersonRec) : Finding :=
  { error_id := "FAMILY", user_story := "US05", user_id := f.id, name := "NA",
    message := "marriage after death for " ++ p.id ++ " " ++ p.name }

/-- The `US06` finding for a spouse who died before the divorce date. -/
def us06Finding (f : FamRec) (p : PersonRec) : Finding :=
  { error_id := "FAMILY", user_story := "US06", user_id := f.id, name := "NA",
    message := "divorce after death for " ++ p.id ++ " " ++ p.name }

/-- The contribution of one spouse to a death-versus-date rule: one
finding when the death date exists and lies strictly before the cutoff
date, none otherwise. -/
def deathFindingOf (fnd : Finding) (dOpt : Option Date) (cutoff : Date) :
    List Finding :=
  match dOpt with
  | none => []
  | some dd => if Date.lt dd cutoff then [fnd] else []

/-- `Families._validate_death_before_marriage` (`US05`): when a marriage
date exists, the husband and then the wife are each checked independently;
a spouse who died strictly before the marriage date yields one finding.  A
spouse identifier missing from the person mapping raises `KeyError`. -/
def deathBeforeMarriageRule (ppl : List (String × PersonRec)) (f : FamRec) :
    Except Err (List Finding) :=
  match f.married_date with
  | none => .ok []
  | some md =>
    let husbPart : Except Err (List Finding) :=
      match f.husband_id with
      | none => .ok []
      | some hid =>
        match alLookup ppl hid with
        | none => .error .keyErr
        | some husb =>
          .ok (deathFindingOf (us05Finding f husb) husb.death_date md)
    match husbPart with
    | .error e => .error e
    | .ok hms =>
      let wifePart : Except Err (List Finding) :=
        match f.wife_id with
        | none => .ok []
        | some wid =>
          match alLookup ppl wid with
          | none => .error .keyErr
          | some wife =>
            .ok (deathFindingOf (us05Finding f wife) wife.death_date md)
      match wifePart with
      | .error e => .error e
      | .ok wms => .ok (hms ++ wms)

/-- `Families._validate_death_before_divorce` (`US06`): the same structure
against the divorce date. -/
def deathBeforeDivorceRule (ppl : List (String × PersonRec)) (f : FamRec) :
    Except Err (List Finding) :=
  match f.divorced_date with
  | none => .ok []
  | some dv =>
    let husbPart : Except Err (List Finding) :=
      match f.husband_id with
      | none => .ok []
      | some hid =>
        match alLookup ppl hid with
        | none => .error .keyErr
        | some husb =>
          .ok (deathFindingOf (us06Finding f husb) husb.death_date dv)
    match husbPart with
    | .error e => .error e
    | .ok hms =>
      let wifePart : Except Err (List Finding) :=
        match f.wife_id with
        | none => .ok []
        | some wid =>
          match alLookup ppl wid with
          | none => .error .keyErr
          | some wife =>
            .ok (deathFindingOf (us06Finding f wife) wife.death_date dv)
      match wifePart with
      | .error e => .error e
      | .ok wms => .ok (hms ++ wms)

/-! ## The validation passes -/

/-- Lexicographic comparison of character lists by code point (the order
Python string comparison and `sorted` use). -/
def charListLe : List Char → List Char → Bool
  | [], _ => true
  | _ :: _, [] => false
  | a :: as, b :: bs =>
    if a < b then true
    else if b < a then false
    else charListLe as bs

/-- Lexicographic (code-point) order on strings, as a Bool. -/
def strLeb (a b : String) : Bool :=
  charListLe a.data b.data

/-- Ascending insertion of a key into a sorted key list. -/
def insertSorted (x : String) : List String → List String
  | [] => [x]
  | y :: ys => if strLeb x y then x :: y :: ys else y :: insertSorted x ys

/-- Python `sorted`: the keys in ascending lexical order. -/
def sortKeys (l : List String) : List String :=
  l.foldr insertSorted []

/-- The family-scoped pass body over an explicit key list: per family, the
death-before-marriage rule then the death-before-divorce rule, findings
appended in discovery order. -/
def famPassAux (ppl : List (String × PersonRec))
    (fams : List (String × FamRec)) : List String → Except Err (List Finding)
  | [] => .ok []
  | k :: ks =>
    match alLookup fams k with
    | none => .error .keyErr
    | some f =>
      match deathBeforeMarriageRule ppl f with
      | .error e => .error e
      | .ok m1 =>
        match deathBeforeDivorceRule ppl f with
        | .error e => .error e
        | .ok m2 =>
          match famPassAux ppl fams ks with
          | .error e => .error e
          | .ok rest => .ok (m1 ++ m2 ++ rest)

/-- `Families.validate`: the family-scoped rules over the family identifiers
in ascending sorted order. -/
def Families.validate (ppl : List (String × PersonRec))
    (fams : List (String × FamRec)) : Except Err (List Finding) :=
  famPassAux ppl fams (sortKeys (alKeys fams))

/-- The fixed per-person rule battery of `People.validate`, pure part, in
source order: birth-before-death, age-bound, birth-not-future,
death-not-future, sibling-marriage. -/
def perPersonPure (ref : Date) (p : PersonRec) : List Finding :=
  birthBeforeDeathRule p ++ ageBoundRule ref p ++ birthNotFutureRule ref p ++
    deathNotFutureRule ref p ++ siblingMarriageRule p

/-- The person-scoped pass body over an explicit key list: the pure rules
then the referential-integrity rule, per person. -/
def peoplePassAux (famsOpt : Option (List (String × FamRec))) (ref : Date)
    (ppl : List (String × PersonRec)) : List String → Except Err (List Finding)
  | [] => .ok []
  | k :: ks =>
    match alLookup ppl k with
    | none => .error .keyErr
    | some p =>
      match correspondingEntriesRule famsOpt p with
      | .error e => .error e
      | .ok mc =>
        match peoplePassAux famsOpt ref ppl ks with
        | .error e => .error e
        | .ok rest => .ok (perPersonPure ref p ++ mc ++ rest)

/-- `People.validate`: the person-scoped rules over the person identifiers
in ascending sorted order, against the wired-in family mapping (`none` when
`set_families` was never called) and the fixed reference instant. -/
def People.validate (famsOpt : Option (List (String × FamRec))) (ref : Date)
    (ppl : List (String × PersonRec)) : Except Err (List Finding) :=
  peoplePassAux famsOpt ref ppl (sortKeys (alKeys ppl))

/-! ## The full pipeline -/

/-- Folding the person builder over a record sequence. -/
def People.ingestAll (s : PeopleState) :
    List Record → Except (Err × PeopleState) PeopleState
  | [] => .ok s
  | r :: rs =>
    match People.processLine s r with
    | .error es => .error es
    | .ok s1 => People.ingestAll s1 rs

/-- Folding the family builder over a record sequence. -/
def Families.ingestAll (ppl : List (String × PersonRec)) (s : FamiliesState) :
    List Record → Except (Err × FamiliesState) FamiliesState
  | [] => .ok s
  | r :: rs =>
    match Families.processLine ppl s r with
    | .error es => .error es
    | .ok s1 => Families.ingestAll ppl s1 rs

/-- Modelled from the spec: the process entry point is not among the given
sources.  Per §2 and §6, both builders consume the record stream to
completion (the person builder's mapping drives the family builder's eager
check), the completed family mapping is then wired into the person side,
and the family-scoped and person-scoped passes run in order over the shared
append-only sink, whose final contents are returned. -/
def runAll (ref : Date) (recs : List Record) : Except Err (List Finding) :=
  match People.ingestAll initPeople recs with
  | .error (e, _) => .error e
  | .ok ps =>
    match Families.ingestAll ps.individuals initFamilies recs with
    | .error (e, _) => .error e
    | .ok fs =>
      match Families.validate ps.individuals fs.families with
      | .error e => .error e
      | .ok famFindings =>
        match People.validate (some fs.families) ref ps.individuals with
        | .error e => .error e
        | .ok pplFindings => .ok (fs.msgs ++ famFindings ++ pplFindings)

/-! ## Basic lemmas about the embedding -/

theorem alLookup_update_self {α : Type} (l : List (String × α)) (k : String)
    (g : α → α) : alLookup (alUpdate l k g) k = (alLookup l k).map g := by
  induction l with
  | nil => rfl
  | cons kv rest ih =>
    obtain ⟨k0, v⟩ := kv
    by_cases h : k0 = k
    · subst h
      simp [alUpdate, alLookup]
    · simp [alUpdate, alLookup, h, ih]

theorem peopleLevelReset_curr (s : PeopleState) (r : Record) :
    (People.levelReset s r).curr = s.curr := by
  unfold People.levelReset; split <;> rfl

theorem People.levelReset_individuals (s : PeopleState) (r : Record) :
    (People.levelReset s r).individuals = s.individuals := by
  unfold People.levelReset; split <;> rfl

theorem famLevelReset_curr (s : FamiliesState) (r : Record) :
    (Families.levelReset s r).curr = s.curr := by
  unfold Families.levelReset; split <;> rfl

theorem Families.levelReset_families (s : FamiliesState) (r : Record) :
    (Families.levelReset s r).families = s.families := by
  unfold Families.levelReset; split <;> rfl

theorem Families.levelReset_msgs (s : FamiliesState) (r : Record) :
    (Families.levelReset s r).msgs = s.msgs := by
  unfold Families.levelReset; split <;> rfl

theorem Families.levelReset_getCurr (s : FamiliesState) (r : Record) :
    (Families.levelReset s r).getCurr = s.getCurr := by
  unfold Families.levelReset; split <;> rfl

theorem peopleMutateOrErr_detached (s : PeopleState) (e : Err)
    (g : PersonRec → PersonRec) (r0 : PersonRec) (hc : s.curr = .detached r0) :
    s.mutateOrErr e g = .ok { s with curr := .detached (g r0) } := by
  simp [PeopleState.mutateOrErr, PeopleState.mutateCurr, hc]

theorem famMutateOrErr_detached (s : FamiliesState) (e : Err)
    (g : FamRec → FamRec) (r0 : FamRec) (hc : s.curr = .detached r0) :
    s.mutateOrErr e g = .ok { s with curr := .detached (g r0) } := by
  simp [FamiliesState.mutateOrErr, FamiliesState.mutateCurr, hc]

theorem famMutateOrErr_spec (s : FamiliesState) (e : Err)
    (g : FamRec → FamRec) (f : FamRec) (hf : s.getCurr = some f) :
    ∃ s2, s.mutateOrErr e g = .ok s2 ∧ s2.getCurr = some (g f) ∧
      s2.ctx = s.ctx ∧ s2.msgs = s.msgs := by
  cases hc : s.curr with
  | none => simp [FamiliesState.getCurr, hc] at hf
  | stored k =>
    have hl : alLookup s.families k = some f := by
      simpa [FamiliesState.getCurr, hc] using hf
    refine ⟨{ s with families := alUpdate s.families k g }, ?_, ?_, rfl, rfl⟩
    · simp [FamiliesState.mutateOrErr, FamiliesState.mutateCurr, hc]
    · simp [FamiliesState.getCurr, hc, alLookup_update_self, hl]
  | detached r0 =>
    have hr : r0 = f := by simpa [FamiliesState.getCurr, hc] using hf
    subst hr
    exact ⟨_, famMutateOrErr_detached s e g r0 hc,
      by simp [FamiliesState.getCurr], rfl, rfl⟩

theorem peopleMutateOrErr_spec (s : PeopleState) (e : Err)
    (g : PersonRec → PersonRec) (p : PersonRec) (hf : s.getCurr = some p) :
    ∃ s2, s.mutateOrErr e g = .ok s2 ∧ s2.getCurr = some (g p) ∧
      s2.ctx = s.ctx := by
  cases hc : s.curr with
  | none => simp [PeopleState.getCurr, hc] at hf
  | stored k =>
    have hl : alLookup s.individuals k = some p := by
      simpa [PeopleState.getCurr, hc] using hf
    refine ⟨{ s with individuals := alUpdate s.individuals k g }, ?_, ?_, rfl⟩
    · simp [PeopleState.mutateOrErr, PeopleState.mutateCurr, hc]
    · simp [PeopleState.getCurr, hc, alLookup_update_self, hl]
  | detached r0 =>
    have hr : r0 = p := by simpa [PeopleState.getCurr, hc] using hf
    subst hr
    exact ⟨_, peopleMutateOrErr_detached s e g r0 hc,
      by simp [PeopleState.getCurr], rfl⟩

theorem FamiliesState.getCurr_setCtx (s : FamiliesState) (c : Option String) :
    ({ s with ctx := c } : FamiliesState).getCurr = s.getCurr := rfl

theorem peopleStep_detached (s : PeopleState) (r : Record) (r0 : PersonRec)
    (s1 : PeopleState) (hc : s.curr = .detached r0) (ht : ¬ r.tag = "INDI")
    (h1 : People.processLine s r = .ok s1) :
    s1.individuals = s.individuals ∧ ∃ r1, s1.curr = .detached r1 := by
  by_cases hv : r.valid = "N"
  · simp [People.processLine, hv] at h1
  · have hc2 : (People.levelReset s r).curr = .detached r0 := by
      rw [peopleLevelReset_curr]; exact hc
    simp only [People.processLine, if_neg hv, if_neg ht] at h1
    by_cases h2 : r.tag = "SEX"
    · rw [if_pos h2, peopleMutateOrErr_detached _ _ _ _ hc2] at h1
      obtain rfl := (Except.ok.inj h1).symm
      exact ⟨People.levelReset_individuals s r, _, rfl⟩
    · rw [if_neg h2] at h1
      by_cases h3 : r.tag = "BIRT"
      · rw [if_pos h3] at h1
        obtain rfl := (Except.ok.inj h1).symm
        exact ⟨People.levelReset_individuals s r, r0, hc2⟩
      · rw [if_neg h3] at h1
        by_cases h4 : r.tag = "DEAT"
        · rw [if_pos h4] at h1
          obtain rfl := (Except.ok.inj h1).symm
          exact ⟨People.levelReset_individuals s r, r0, hc2⟩
        · rw [if_neg h4] at h1
          by_cases h5 : r.tag = "FAMC"
          · rw [if_pos h5, peopleMutateOrErr_detached _ _ _ _ hc2] at h1
            obtain rfl := (Except.ok.inj h1).symm
            exact ⟨People.levelReset_individuals s r, _, rfl⟩
          · rw [if_neg h5] at h1
            by_cases h6 : r.tag = "FAMS"
            · rw [if_pos h6, peopleMutateOrErr_detached _ _ _ _ hc2] at h1
              obtain rfl := (Except.ok.inj h1).symm
              exact ⟨People.levelReset_individuals s r, _, rfl⟩
            · rw [if_neg h6] at h1
              by_cases h7 : r.tag = "NAME"
              · rw [if_pos h7, peopleMutateOrErr_detached _ _ _ _ hc2] at h1
                obtain rfl := (Except.ok.inj h1).symm
                exact ⟨People.levelReset_individuals s r, _, rfl⟩
              · rw [if_neg h7] at h1
                by_cases h8 : r.tag = "DATE"
                · rw [if_pos h8] at h1
                  by_cases hb : (People.levelReset s r).ctx = some "BIRT"
                  · rw [if_pos hb, hc2] at h1
                    cases hp : parseDate r.args with
                    | none => rw [hp] at h1; simp at h1
                    | some d =>
                      rw [hp] at h1
                      rw [show (match CurrRef.detached r0 with
                          | CurrRef.none =>
                            Except.error (Err.attrErr, People.levelReset s r)
                          | _ =>
                            match some d with
                            | none =>
                              Except.error (Err.dateFormat, People.levelReset s r)
                            | some d =>
                              (People.levelReset s r).mutateOrErr Err.attrErr
                                fun p => { p with birth_date := some d }) =
                          (People.levelReset s r).mutateOrErr Err.attrErr
                            (fun p => { p with birth_date := some d }) from rfl,
                        peopleMutateOrErr_detached _ _ _ _ hc2] at h1
                      obtain rfl := (Except.ok.inj h1).symm
                      exact ⟨People.levelReset_individuals s r, _, rfl⟩
                  · rw [if_neg hb] at h1
                    by_cases hd : (People.levelReset s r).ctx = some "DEAT"
                    · rw [if_pos hd, hc2] at h1
                      cases hp : parseDate r.args with
                      | none => rw [hp] at h1; simp at h1
                      | some d =>
                        rw [hp] at h1
                        rw [show (match CurrRef.detached r0 with
                            | CurrRef.none =>
                              Except.error (Err.attrErr, People.levelReset s r)
                            | _ =>
                              match some d with
                              | none =>
                                Except.error (Err.dateFormat, People.levelReset s r)
                              | some d =>
                                (People.levelReset s r).mutateOrErr Err.attrErr
                                  fun p => { p with death_date := some d }) =
                            (People.levelReset s r).mutateOrErr Err.attrErr
                              (fun p => { p with death_date := some d }) from rfl,
                          peopleMutateOrErr_detached _ _ _ _ hc2] at h1
                        obtain rfl := (Except.ok.inj h1).symm
                        exact ⟨People.levelReset_individuals s r, _, rfl⟩
                    · rw [if_neg hd] at h1
                      obtain rfl := (Except.ok.inj h1).symm
                      exact ⟨People.levelReset_individuals s r, r0, hc2⟩
                · rw [if_neg h8] at h1
                  obtain rfl := (Except.ok.inj h1).symm
                  exact ⟨People.levelReset_individuals s r, r0, hc2⟩

theorem Families.dateStep_detached (ppl : List (String × PersonRec))
    (s : FamiliesState) (d : Date) (r0 : FamRec) (s1 : FamiliesState)
    (hc : s.curr = .detached r0) (h1 : Families.dateStep ppl s d = .ok s1) :
    s1.families = s.families ∧ ∃ r1, s1.curr = .detached r1 := by
  have hg : s.getCurr = some r0 := by simp [FamiliesState.getCurr, hc]
  by_cases hm : s.ctx = some "MARR"
  · rw [Families.dateStep, if_pos hm, hg] at h1
    cases hq : isValidMarriedDate ppl r0 d with
    | error e => simp [hq] at h1
    | ok res =>
      obtain ⟨pass, newMsgs⟩ := res
      cases pass with
      | true =>
        simp only [hq] at h1
        rw [famMutateOrErr_detached _ _ _ _
          (show ({ s with msgs := s.msgs ++ newMsgs } : FamiliesState).curr =
            CurrRef.detached r0 from hc)] at h1
        obtain rfl := (Except.ok.inj h1).symm
        exact ⟨rfl, _, rfl⟩
      | false =>
        simp only [hq] at h1
        obtain rfl := (Except.ok.inj h1).symm
        exact ⟨rfl, r0, hc⟩
  · rw [Families.dateStep, if_neg hm] at h1
    by_cases hd : s.ctx = some "DIV"
    · rw [if_pos hd, famMutateOrErr_detached _ _ _ _ hc] at h1
      obtain rfl := (Except.ok.inj h1).symm
      exact ⟨rfl, _, rfl⟩
    · rw [if_neg hd] at h1
      obtain rfl := (Except.ok.inj h1).symm
      exact ⟨rfl, r0, hc⟩

theorem famStep_detached (ppl : List (String × PersonRec))
    (s : FamiliesState) (r : Record) (r0 : FamRec) (s1 : FamiliesState)
    (hc : s.curr = .detached r0) (ht : ¬ r.tag = "FAM")
    (h1 : Families.processLine ppl s r = .ok s1) :
    s1.families = s.families ∧ ∃ r1, s1.curr = .detached r1 := by
  by_cases hv : r.valid = "N"
  · simp [Families.processLine, hv] at h1
  · have hc2 : (Families.levelReset s r).curr = .detached r0 := by
      rw [famLevelReset_curr]; exact hc
    simp only [Families.processLine, if_neg hv, if_neg ht] at h1
    by_cases h2 : r.tag = "MARR"
    · rw [if_pos h2, famMutateOrErr_detached _ _ _ _ hc2] at h1
      obtain rfl := (Except.ok.inj h1).symm
      exact ⟨Families.levelReset_families s r, _, rfl⟩
    · rw [if_neg h2] at h1
      by_cases h3 : r.tag = "DIV"
      · rw [if_pos h3, famMutateOrErr_detached _ _ _ _ hc2] at h1
        obtain rfl := (Except.ok.inj h1).symm
        exact ⟨Families.levelReset_families s r, _, rfl⟩
      · rw [if_neg h3] at h1
        by_cases h4 : r.tag = "HUSB"
        · rw [if_pos h4, famMutateOrErr_detached _ _ _ _ hc2] at h1
          obtain rfl := (Except.ok.inj h1).symm
          exact ⟨Families.levelReset_families s r, _, rfl⟩
        · rw [if_neg h4] at h1
          by_cases h5 : r.tag = "WIFE"
          · rw [if_pos h5, famMutateOrErr_detached _ _ _ _ hc2] at h1
            obtain rfl := (Except.ok.inj h1).symm
            exact ⟨Families.levelReset_families s r, _, rfl⟩
          · rw [if_neg h5] at h1
            by_cases h6 : r.tag = "CHIL"
            · rw [if_pos h6, famMutateOrErr_detached _ _ _ _ hc2] at h1
              obtain rfl := (Except.ok.inj h1).symm
              exact ⟨Families.levelReset_families s r, _, rfl⟩
            · rw [if_neg h6] at h1
              by_cases h7 : r.tag = "DATE"
              · rw [if_pos h7] at h1
                cases hp : parseDate r.args with
                | none => rw [hp] at h1; simp at h1
                | some d =>
                  rw [hp] at h1
                  obtain ⟨hfam, hdet⟩ :=
                    Families.dateStep_detached ppl (Families.levelReset s r) d r0 s1 hc2 h1
                  exact ⟨hfam.trans (Families.levelReset_families s r), hdet⟩
              · rw [if_neg h7] at h1
                obtain rfl := (Except.ok.inj h1).symm
                exact ⟨Families.levelReset_families s r, r0, hc2⟩

theorem peopleIngestAll_detached_frame :
    ∀ (recs : List Record) (s : PeopleState) (r0 : PersonRec)
      (s2 : PeopleState), s.curr = .detached r0 →
      (∀ rec ∈ recs, ¬ rec.tag = "INDI") →
      People.ingestAll s recs = .ok s2 → s2.individuals = s.individuals
  | [], s, _, s2, _, _, h => by
    simp only [People.ingestAll] at h
    rw [← Except.ok.inj h]
  | r :: rs, s, r0, s2, hc, hts, h => by
    simp only [People.ingestAll] at h
    cases h1 : People.processLine s r with
    | error es => rw [h1] at h; simp at h
    | ok s1 =>
      rw [h1] at h
      obtain ⟨hi, r1, hc1⟩ :=
        peopleStep_detached s r r0 s1 hc (hts r (List.mem_cons_self r rs)) h1
      exact (peopleIngestAll_detached_frame rs s1 r1 s2 hc1
        (fun rec hm => hts rec (List.mem_cons_of_mem r hm)) h).trans hi

theorem famIngestAll_detached_frame :
    ∀ (ppl : List (String × PersonRec)) (recs : List Record)
      (s : FamiliesState) (r0 : FamRec) (s2 : FamiliesState),
      s.curr = .detached r0 → (∀ rec ∈ recs, ¬ rec.tag = "FAM") →
      Families.ingestAll ppl s recs = .ok s2 → s2.families = s.families
  | _, [], s, _, s2, _, _, h => by
    simp only [Families.ingestAll] at h
    rw [← Except.ok.inj h]
  | ppl, r :: rs, s, r0, s2, hc, hts, h => by
    simp only [Families.ingestAll] at h
    cases h1 : Families.processLine ppl s r with
    | error es => rw [h1] at h; simp at h
    | ok s1 =>
      rw [h1] at h
      obtain ⟨hi, r1, hc1⟩ :=
        famStep_detached ppl s r r0 s1 hc (hts r (List.mem_cons_self r rs)) h1
      exact (famIngestAll_detached_frame ppl rs s1 r1 s2 hc1
        (fun rec hm => hts rec (List.mem_cons_of_mem r hm)) h).trans hi

/-! ## The claims -/

/-- **C10**: for every family (current family object present), ingesting a
`MARR` record sets the married flag to true and resets the stored marriage
date to unset, and ingesting a `DIV` record sets the divorced flag to true
and resets the stored divorce date to unset; hence a second `MARR` (resp.
`DIV`) record erases a previously stored marriage (resp. divorce) date even
if no new `DATE` record follows. -/
theorem C10_marr_div_reset (ppl : List (String × PersonRec))
    (s : FamiliesState) (r : Record) (f : FamRec)
    (hf : s.getCurr = some f) (hv : ¬ r.valid = "N") :
    (r.tag = "MARR" → ∃ s2, Families.processLine ppl s r = .ok s2 ∧
       s2.getCurr = some { f with married := true, married_date := none } ∧
       s2.ctx = some "MARR") ∧
    (r.tag = "DIV" → ∃ s2, Families.processLine ppl s r = .ok s2 ∧
       s2.getCurr = some { f with divorced := true, divorced_date := none } ∧
       s2.ctx = some "DIV") := by
  have hf2 : (Families.levelReset s r).getCurr = some f := by
    rw [Families.levelReset_getCurr]; exact hf
  constructor
  · intro ht
    obtain ⟨s2, hm, hg, hctx, hmsgs⟩ := famMutateOrErr_spec
      (Families.levelReset s r) .typeErr
      (fun fr => { fr with married := true, married_date := none }) f hf2
    refine ⟨{ s2 with ctx := some "MARR" }, ?_, ?_, rfl⟩
    · simp [Families.processLine, hv, ht, hm]
    · rw [FamiliesState.getCurr_setCtx]; exact hg
  · intro ht
    obtain ⟨s2, hm, hg, hctx, hmsgs⟩ := famMutateOrErr_spec
      (Families.levelReset s r) .typeErr
      (fun fr => { fr with divorced := true, divorced_date := none }) f hf2
    refine ⟨{ s2 with ctx := some "DIV" }, ?_, ?_, rfl⟩
    · simp [Families.processLine, hv, ht, hm]
    · rw [FamiliesState.getCurr_setCtx]; exact hg

/-- Witness for C10 at a concrete input: a family that already stores a
marriage date, hit by a second `MARR` record, ends with the married flag set
and the stored date erased. -/
theorem C10_marr_div_reset_witness :
    Families.processLine []
      { families := [("@F1@", { id := "@F1@", married_date := some ⟨2000, 1, 1⟩, married := true })],
        curr := .stored "@F1@", ctx := none, msgs := [] }
      ⟨1, "MARR", "", "Y"⟩ =
      .ok { families := [("@F1@", { id := "@F1@", married_date := none, married := true })],
            curr := .stored "@F1@", ctx := some "MARR", msgs := [] } ∧
    FamiliesState.getCurr
      { families := [("@F1@", { id := "@F1@", married_date := none, married := true })],
        curr := .stored "@F1@", ctx := some "MARR", msgs := [] } =
      some { id := "@F1@", married_date := none, married := true } := by
  obtain ⟨s2, h1, h2, h3⟩ := (C10_marr_div_reset []
    { families := [("@F1@", { id := "@F1@", married_date := some ⟨2000, 1, 1⟩, married := true })],
      curr := .stored "@F1@", ctx := none, msgs := [] }
    ⟨1, "MARR", "", "Y"⟩
    { id := "@F1@", married_date := some ⟨2000, 1, 1⟩, married := true }
    (by decide) (by decide)).1 rfl
  have he : s2 = { families := [("@F1@", { id := "@F1@", married_date := none, married := true })], curr := .stored "@F1@", ctx := some "MARR", msgs := [] } :=
    Except.ok.inj (h1.symm.trans rfl)
  subst he
  exact ⟨h1, h2⟩

/-- **C8**: for every identifier, ingesting a second top-level `INDI`
(resp. `FAM`) record carrying an identifier already present in the person
(resp. family) mapping leaves the mapping completely unchanged: the entry
keeps its first-created entity with all fields accumulated so far
(first-write-wins; create-or-fetch is idempotent on the mapping). -/
theorem C8_duplicate_toplevel_keeps_mapping (ppl : List (String × PersonRec))
    (sp : PeopleState) (sf : FamiliesState) (r : Record)
    (hv : ¬ r.valid = "N") :
    (r.tag = "INDI" → alHas sp.individuals r.args = true →
       ∃ s2, People.processLine sp r = .ok s2 ∧
         s2.individuals = sp.individuals) ∧
    (r.tag = "FAM" → alHas sf.families r.args = true →
       ∃ s2, Families.processLine ppl sf r = .ok s2 ∧
         s2.families = sf.families) := by
  constructor
  · intro ht hh
    have hh2 : alHas (People.levelReset sp r).individuals r.args = true := by
      rw [People.levelReset_individuals]; exact hh
    refine ⟨{ People.levelReset sp r with curr := .detached { id := r.args } },
      ?_, ?_⟩
    · simp [People.processLine, hv, ht, hh2]
    · exact People.levelReset_individuals sp r
  · intro ht hh
    have hh2 : alHas (Families.levelReset sf r).families r.args = true := by
      rw [Families.levelReset_families]; exact hh
    refine ⟨{ Families.levelReset sf r with curr := .detached { id := r.args } },
      ?_, ?_⟩
    · simp [Families.processLine, hv, ht, hh2]
    · exact Families.levelReset_families sf r

/-- Witness for C8 at a concrete input: a duplicate `INDI @I1@` (with the
stored person already carrying a name) leaves the mapping unchanged — the
fresh person becomes the current object but is not stored. -/
theorem C8_duplicate_toplevel_keeps_mapping_witness :
    People.processLine
      { individuals := [("@I1@", { id := "@I1@", name := "Bob" })],
        curr := .stored "@I1@", ctx := none }
      ⟨0, "INDI", "@I1@", "Y"⟩ =
      .ok { individuals := [("@I1@", { id := "@I1@", name := "Bob" })],
            curr := .detached { id := "@I1@" }, ctx := none } ∧
    PeopleState.individuals
      { individuals := [("@I1@", { id := "@I1@", name := "Bob" })],
        curr := .detached { id := "@I1@" }, ctx := none } =
      [("@I1@", { id := "@I1@", name := "Bob" })] := by
  obtain ⟨s2, h1, h2⟩ := (C8_duplicate_toplevel_keeps_mapping []
    { individuals := [("@I1@", { id := "@I1@", name := "Bob" })],
      curr := .stored "@I1@", ctx := none }
    initFamilies ⟨0, "INDI", "@I1@", "Y"⟩ (by decide)).1 rfl (by decide)
  have he : s2 = { individuals := [("@I1@", { id := "@I1@", name := "Bob" })], curr := .detached { id := "@I1@" }, ctx := none } :=
    Except.ok.inj (h1.symm.trans rfl)
  subst he
  exact ⟨h1, h2⟩

/-- **C9**: after a duplicate top-level record, the current entity is a
fresh object that is never stored, so the entity stored under the duplicated
identifier — indeed the whole mapping — is left unchanged by every
subsequent subordinate record (any record whose tag is not the top-level
`INDI` resp. `FAM`), for as long as no new top-level record arrives: those
writes are silently discarded. -/
theorem C9_writes_after_duplicate_discarded :
    (∀ (recs : List Record) (s : PeopleState) (r0 : PersonRec)
       (s2 : PeopleState), s.curr = .detached r0 →
       (∀ rec ∈ recs, ¬ rec.tag = "INDI") →
       People.ingestAll s recs = .ok s2 → s2.individuals = s.individuals) ∧
    (∀ (ppl : List (String × PersonRec)) (recs : List Record)
       (s : FamiliesState) (r0 : FamRec) (s2 : FamiliesState),
       s.curr = .detached r0 → (∀ rec ∈ recs, ¬ rec.tag = "FAM") →
       Families.ingestAll ppl s recs = .ok s2 → s2.families = s.families) :=
  ⟨fun recs s r0 s2 => peopleIngestAll_detached_frame recs s r0 s2,
   fun ppl recs s r0 s2 => famIngestAll_detached_frame ppl recs s r0 s2⟩

/-- Witness for C9 at a concrete input: after a detached current person
(resulting from a duplicate `INDI`), a `NAME`, a `BIRT` and a `DATE` record
leave the stored person mapping untouched. -/
theorem C9_writes_after_duplicate_discarded_witness :
    People.ingestAll
      { individuals := [("@I1@", { id := "@I1@", name := "Bob" })],
        curr := .detached { id := "@I1@" }, ctx := none }
      [⟨1, "NAME", "Evil", "Y"⟩, ⟨1, "BIRT", "", "Y"⟩,
       ⟨2, "DATE", "1 JAN 1990", "Y"⟩] =
      .ok { individuals := [("@I1@", { id := "@I1@", name := "Bob" })], curr := .detached { id := "@I1@", name := "Evil", birth_date := some ⟨1990, 1, 1⟩ }, ctx := some "BIRT" } ∧
    PeopleState.individuals
      { individuals := [("@I1@", { id := "@I1@", name := "Bob" })], curr := .detached { id := "@I1@", name := "Evil", birth_date := some ⟨1990, 1, 1⟩ }, ctx := some "BIRT" } =
      [("@I1@", { id := "@I1@", name := "Bob" })] :=
  ⟨rfl,
   C9_writes_after_duplicate_discarded.1
     [⟨1, "NAME", "Evil", "Y"⟩, ⟨1, "BIRT", "", "Y"⟩,
      ⟨2, "DATE", "1 JAN 1990", "Y"⟩]
     { individuals := [("@I1@", { id := "@I1@", name := "Bob" })],
       curr := .detached { id := "@I1@" }, ctx := none }
     { id := "@I1@" }
     { individuals := [("@I1@", { id := "@I1@", name := "Bob" })], curr := .detached { id := "@I1@", name := "Evil", birth_date := some ⟨1990, 1, 1⟩ }, ctx := some "BIRT" }
     rfl (by decide) rfl⟩

theorem err_pair_fst {α β : Type} {e0 e : Err} {s0 s2 : α}
    (h : (Except.error (e0, s0) : Except (Err × α) β) = .error (e, s2)) :
    e = e0 :=
  (Prod.mk.inj (Except.error.inj h)).1.symm

theorem peopleMutateOrErr_error (s : PeopleState) (e : Err)
    (g : PersonRec → PersonRec) (e2 : Err) (s2 : PeopleState)
    (h : s.mutateOrErr e g = .error (e2, s2)) : e2 = e ∧ s2 = s := by
  cases hc : s.curr <;>
    simp [PeopleState.mutateOrErr, PeopleState.mutateCurr, hc] at h
  exact ⟨h.1.symm, h.2.symm⟩

theorem famMutateOrErr_error (s : FamiliesState) (e : Err)
    (g : FamRec → FamRec) (e2 : Err) (s2 : FamiliesState)
    (h : s.mutateOrErr e g = .error (e2, s2)) : e2 = e ∧ s2 = s := by
  cases hc : s.curr <;>
    simp [FamiliesState.mutateOrErr, FamiliesState.mutateCurr, hc] at h
  exact ⟨h.1.symm, h.2.symm⟩

theorem isValidMarriedDate_error (ppl : List (String × PersonRec)) (f : FamRec)
    (md : Date) (e : Err) (h : isValidMarriedDate ppl f md = .error e) :
    e = .keyErr ∨ e = .typeErr := by
  unfold isValidMarriedDate at h
  split at h
  · exact Or.inl (Except.error.inj h).symm
  · split at h
    · exact Or.inl (Except.error.inj h).symm
    · split at h
      · exact Or.inr (Except.error.inj h).symm
      · split at h
        · simp at h
        · split at h
          · exact Or.inl (Except.error.inj h).symm
          · split at h
            · exact Or.inl (Except.error.inj h).symm
            · split at h
              · exact Or.inr (Except.error.inj h).symm
              · split at h <;> simp at h

theorem Families.dateStep_no_malformed (ppl : List (String × PersonRec))
    (s : FamiliesState) (d : Date) (e : Err) (s2 : FamiliesState)
    (h : Families.dateStep ppl s d = .error (e, s2)) : ¬ e = .malformed := by
  unfold Families.dateStep at h
  split at h
  · split at h
    · rw [err_pair_fst h]; simp
    · split at h
      next e0 heq =>
        rw [err_pair_fst h]
        rcases isValidMarriedDate_error ppl _ d e0 heq with h0 | h0 <;>
          (rw [h0]; simp)
      next pass newMsgs heq =>
        cases pass with
        | true =>
          simp only [if_pos] at h
          obtain ⟨he, _⟩ := famMutateOrErr_error _ _ _ _ _ h
          rw [he]; simp
        | false => simp at h
  · split at h
    · obtain ⟨he, _⟩ := famMutateOrErr_error _ _ _ _ _ h
      rw [he]; simp
    · simp at h

theorem peopleProcessLine_no_malformed (s : PeopleState) (r : Record)
    (e : Err) (s2 : PeopleState) (hv : ¬ r.valid = "N")
    (h : People.processLine s r = .error (e, s2)) : ¬ e = .malformed := by
  simp only [People.processLine, if_neg hv] at h
  by_cases h1 : r.tag = "INDI"
  · rw [if_pos h1] at h
    split at h <;> simp at h
  · rw [if_neg h1] at h
    by_cases h2 : r.tag = "SEX"
    · rw [if_pos h2] at h
      split at h
      next es heq =>
        obtain rfl : es = (e, s2) := Except.error.inj h
        obtain ⟨he, _⟩ := peopleMutateOrErr_error _ _ _ _ _ heq
        rw [he]; simp
      next s1 heq => simp at h
    · rw [if_neg h2] at h
      by_cases h3 : r.tag = "BIRT"
      · rw [if_pos h3] at h; simp at h
      · rw [if_neg h3] at h
        by_cases h4 : r.tag = "DEAT"
        · rw [if_pos h4] at h; simp at h
        · rw [if_neg h4] at h
          by_cases h5 : r.tag = "FAMC"
          · rw [if_pos h5] at h
            split at h
            next es heq =>
              obtain rfl : es = (e, s2) := Except.error.inj h
              obtain ⟨he, _⟩ := peopleMutateOrErr_error _ _ _ _ _ heq
              rw [he]; simp
            next s1 heq => simp at h
          · rw [if_neg h5] at h
            by_cases h6 : r.tag = "FAMS"
            · rw [if_pos h6] at h
              split at h
              next es heq =>
                obtain rfl : es = (e, s2) := Except.error.inj h
                obtain ⟨he, _⟩ := peopleMutateOrErr_error _ _ _ _ _ heq
                rw [he]; simp
              next s1 heq => simp at h
            · rw [if_neg h6] at h
              by_cases h7 : r.tag = "NAME"
              · rw [if_pos h7] at h
                split at h
                next es heq =>
                  obtain rfl : es = (e, s2) := Except.error.inj h
                  obtain ⟨he, _⟩ := peopleMutateOrErr_error _ _ _ _ _ heq
                  rw [he]; simp
                next s1 heq => simp at h
              · rw [if_neg h7] at h
                by_cases h8 : r.tag = "DATE"
                · rw [if_pos h8] at h
                  split at h
                  · split at h
                    · rw [err_pair_fst h]; simp
                    · split at h
                      · rw [err_pair_fst h]; simp
                      · obtain ⟨he, _⟩ := peopleMutateOrErr_error _ _ _ _ _ h
                        rw [he]; simp
                  · split at h
                    · split at h
                      · rw [err_pair_fst h]; simp
                      · split at h
                        · rw [err_pair_fst h]; simp
                        · obtain ⟨he, _⟩ := peopleMutateOrErr_error _ _ _ _ _ h
                          rw [he]; simp
                    · simp at h
                · rw [if_neg h8] at h; simp at h

theorem famProcessLine_no_malformed (ppl : List (String × PersonRec))
    (s : FamiliesState) (r : Record) (e : Err) (s2 : FamiliesState)
    (hv : ¬ r.valid = "N")
    (h : Families.processLine ppl s r = .error (e, s2)) : ¬ e = .malformed := by
  simp only [Families.processLine, if_neg hv] at h
  by_cases h1 : r.tag = "FAM"
  · rw [if_pos h1] at h
    split at h <;> simp at h
  · rw [if_neg h1] at h
    by_cases h2 : r.tag = "MARR"
    · rw [if_pos h2] at h
      split at h
      next es heq =>
        obtain rfl : es = (e, s2) := Except.error.inj h
        obtain ⟨he, _⟩ := famMutateOrErr_error _ _ _ _ _ heq
        rw [he]; simp
      next s1 heq => simp at h
    · rw [if_neg h2] at h
      by_cases h3 : r.tag = "DIV"
      · rw [if_pos h3] at h
        split at h
        next es heq =>
          obtain rfl : es = (e, s2) := Except.error.inj h
          obtain ⟨he, _⟩ := famMutateOrErr_error _ _ _ _ _ heq
          rw [he]; simp
        next s1 heq => simp at h
      · rw [if_neg h3] at h
        by_cases h4 : r.tag = "HUSB"
        · rw [if_pos h4] at h
          split at h
          next es heq =>
            obtain rfl : es = (e, s2) := Except.error.inj h
            obtain ⟨he, _⟩ := famMutateOrErr_error _ _ _ _ _ heq
            rw [he]; simp
          next s1 heq => simp at h
        · rw [if_neg h4] at h
          by_cases h5 : r.tag = "WIFE"
          · rw [if_pos h5] at h
            split at h
            next es heq =>
              obtain rfl : es = (e, s2) := Except.error.inj h
              obtain ⟨he, _⟩ := famMutateOrErr_error _ _ _ _ _ heq
              rw [he]; simp
            next s1 heq => simp at h
          · rw [if_neg h5] at h
            by_cases h6 : r.tag = "CHIL"
            · rw [if_pos h6] at h
              split at h
              next es heq =>
                obtain rfl : es = (e, s2) := Except.error.inj h
                obtain ⟨he, _⟩ := famMutateOrErr_error _ _ _ _ _ heq
                rw [he]; simp
              next s1 heq => simp at h
            · rw [if_neg h6] at h
              by_cases h7 : r.tag = "DATE"
              · rw [if_pos h7] at h
                split at h
                next heq => rw [err_pair_fst h]; simp
                next d heq => exact Families.dateStep_no_malformed ppl _ d e s2 h
              · rw [if_neg h7] at h; simp at h

/-- **C3** (amended): ingesting a record whose well-formedness flag is false
(`valid = "N"`) raises the malformed-record error in either builder before
any state mutation — the carried state is exactly the pre-call state, so no
entity or field write is committed.  A record whose flag is true never
raises the malformed-record error; however — this is the amendment — such a
call can still fail with a different error (for instance a subordinate tag
with no current entity, or an unparseable `DATE` argument), so "the call
fails if and only if the flag is false" does not hold as stated. -/
theorem C3_malformed_handling (ppl : List (String × PersonRec))
    (sp : PeopleState) (sf : FamiliesState) (r : Record) :
    (r.valid = "N" →
       People.processLine sp r = .error (.malformed, sp) ∧
       Families.processLine ppl sf r = .error (.malformed, sf)) ∧
    (¬ r.valid = "N" →
       (∀ e s2, People.processLine sp r = .error (e, s2) → ¬ e = .malformed) ∧
       (∀ e s2, Families.processLine ppl sf r = .error (e, s2) →
          ¬ e = .malformed)) := by
  constructor
  · intro hv
    exact ⟨by simp [People.processLine, hv], by simp [Families.processLine, hv]⟩
  · intro hv
    exact ⟨fun e s2 h => peopleProcessLine_no_malformed sp r e s2 hv h,
           fun e s2 h => famProcessLine_no_malformed ppl sf r e s2 hv h⟩

/-- Counterexample to C3 as stated: a record whose flag is true (`"Y"`) can
still make the ingestion call fail — a `MARR` record with no current family
raises a (`TypeError`-kind) error — so "the call fails if and only if the
flag is false" is refuted at this input. -/
theorem C3_counterexample :
    (⟨1, "MARR", "", "Y"⟩ : Record).valid ≠ "N" ∧
    Families.processLine [] initFamilies ⟨1, "MARR", "", "Y"⟩ =
      .error (.typeErr, initFamilies) :=
  ⟨by decide, rfl⟩

/-- Witness for C3 (amended) at a concrete input: a malformed record is
rejected with the malformed-record error and the untouched state. -/
theorem C3_malformed_handling_witness :
    People.processLine initPeople ⟨0, "INDI", "@I1@", "N"⟩ =
      .error (.malformed, initPeople) ∧
    Families.processLine [] initFamilies ⟨0, "FAM", "@F1@", "N"⟩ =
      .error (.malformed, initFamilies) :=
  ⟨(C3_malformed_handling [] initPeople initFamilies
      ⟨0, "INDI", "@I1@", "N"⟩).1 rfl |>.1,
   (C3_malformed_handling [] initPeople initFamilies
      ⟨0, "FAM", "@F1@", "N"⟩).1 rfl |>.2⟩

theorem famLevelReset_high (s : FamiliesState) (r : Record)
    (hl : ¬ r.level < 2) : Families.levelReset s r = s := by
  unfold Families.levelReset; rw [if_neg hl]

theorem peopleLevelReset_high (s : PeopleState) (r : Record)
    (hl : ¬ r.level < 2) : People.levelReset s r = s := by
  unfold People.levelReset; rw [if_neg hl]

theorem peopleLevelReset_low (s : PeopleState) (r : Record)
    (hl : r.level < 2) : People.levelReset s r = { s with ctx := none } := by
  unfold People.levelReset; rw [if_pos hl]

theorem famLevelReset_low (s : FamiliesState) (r : Record)
    (hl : r.level < 2) : Families.levelReset s r = { s with ctx := none } := by
  unfold Families.levelReset; rw [if_pos hl]

/-- **C1** (amended): for a family whose current context is `MARR`, an
arriving `DATE` record with marriage date `D` triggers the eager check,
husband first: if the husband's birth date is *strictly after* `D` — the
amendment: the code fires on `D < birth`, so a birth date equal to `D`
passes, while the claim's "not before `D`" would also fire on equality —
exactly one finding is emitted for the husband, the wife is not consulted
(no hypothesis about her is needed), and the state is unchanged apart from
the sink, so the marriage date stays unset; only if the husband passes is
the wife checked, a wife failure emitting exactly one finding for the wife
with the date again unset; if both pass, `D` is stored as the family's
marriage date. -/
theorem C1_eager_marriage_check (ppl : List (String × PersonRec))
    (s : FamiliesState) (r : Record) (D : Date) (f : FamRec) (hid : String)
    (husb : PersonRec) (hb : Date) (hv : ¬ r.valid = "N")
    (ht : r.tag = "DATE") (hl : ¬ r.level < 2) (hp : parseDate r.args = some D)
    (hctx : s.ctx = some "MARR") (hf : s.getCurr = some f)
    (hh : f.husband_id = some hid) (hhl : alLookup ppl hid = some husb)
    (hhb : husb.birth_date = some hb) :
    (Date.lt D hb = true →
       Families.processLine ppl s r =
         .ok { s with msgs := s.msgs ++ [us02Finding husb] }) ∧
    (Date.lt D hb = false →
       ∀ wid wife wb, f.wife_id = some wid → alLookup ppl wid = some wife →
         wife.birth_date = some wb →
         (Date.lt D wb = true →
            Families.processLine ppl s r =
              .ok { s with msgs := s.msgs ++ [us02Finding wife] }) ∧
         (Date.lt D wb = false →
            ∃ s2, Families.processLine ppl s r = .ok s2 ∧
              s2.getCurr = some { f with married_date := some D } ∧
              s2.msgs = s.msgs ∧ s2.ctx = s.ctx)) := by
  have hlr : Families.levelReset s r = s := famLevelReset_high s r hl
  have hpl : Families.processLine ppl s r = Families.dateStep ppl s D := by
    simp [Families.processLine, hv, ht, hlr, hp]
  constructor
  · intro hlt
    have hval : isValidMarriedDate ppl f D = .ok (false, [us02Finding husb]) := by
      simp [isValidMarriedDate, hh, hhl, hhb, hlt]
    rw [hpl]
    simp [Families.dateStep, hctx, hf, hval]
  · intro hlt wid wife wb hw hwl hwb
    constructor
    · intro hlt2
      have hval : isValidMarriedDate ppl f D = .ok (false, [us02Finding wife]) := by
        simp [isValidMarriedDate, hh, hhl, hhb, hlt, hw, hwl, hwb, hlt2]
      rw [hpl]
      simp [Families.dateStep, hctx, hf, hval]
    · intro hlt2
      have hval : isValidMarriedDate ppl f D = .ok (true, []) := by
        simp [isValidMarriedDate, hh, hhl, hhb, hlt, hw, hwl, hwb, hlt2]
      obtain ⟨s2, hm, hg, hc2, hm2⟩ := famMutateOrErr_spec
        ({ s with msgs := s.msgs ++ [] }) .typeErr
        (fun fr => { fr with married_date := some D }) f hf
      rw [hctx] at hm
      refine ⟨s2, ?_, hg, ?_, hc2⟩
      · rw [hpl]
        simp only [Families.dateStep, hctx, hf, hval, if_pos]
        exact hm
      · rw [hm2, List.append_nil]

/-- Counterexample to C1 as stated: with the husband's birth date *equal* to
the marriage date `D` (so "not before `D`" holds), the claim demands one
finding for the husband, no wife check, and no stored date; the code instead
lets the husband pass (its test is strict `D < birth`), checks the wife, and
— the wife's birth lying after `D` — emits the finding for the *wife*. -/
theorem C1_counterexample :
    Families.processLine
      [("@H@", { id := "@H@", name := "H", birth_date := some ⟨2000, 1, 1⟩ }),
       ("@W@", { id := "@W@", name := "W", birth_date := some ⟨2005, 1, 1⟩ })]
      { families := [("@F1@",
          { id := "@F1@", husband_id := some "@H@", wife_id := some "@W@" })],
        curr := .stored "@F1@", ctx := some "MARR", msgs := [] }
      ⟨2, "DATE", "1 JAN 2000", "Y"⟩ =
    .ok { families := [("@F1@",
            { id := "@F1@", husband_id := some "@H@", wife_id := some "@W@" })],
          curr := .stored "@F1@", ctx := some "MARR",
          msgs := [us02Finding
            { id := "@W@", name := "W", birth_date := some ⟨2005, 1, 1⟩ }] } :=
  rfl

/-- Witness for C1 (amended) at a concrete input: the husband's birth date
lies strictly after the proposed marriage date, so exactly one finding is
emitted for the husband and the family record is left untouched — the wife
identifier is not even present in the person mapping, showing she is not
consulted. -/
theorem C1_eager_marriage_check_witness :
    Families.processLine
      [("@H@", { id := "@H@", name := "H", birth_date := some ⟨2005, 1, 1⟩ })]
      { families := [("@F1@",
          { id := "@F1@", husband_id := some "@H@", wife_id := some "@W@" })],
        curr := .stored "@F1@", ctx := some "MARR", msgs := [] }
      ⟨2, "DATE", "1 JAN 2000", "Y"⟩ =
    .ok { families := [("@F1@",
            { id := "@F1@", husband_id := some "@H@", wife_id := some "@W@" })],
          curr := .stored "@F1@", ctx := some "MARR",
          msgs := [us02Finding
            { id := "@H@", name := "H", birth_date := some ⟨2005, 1, 1⟩ }] } :=
  (C1_eager_marriage_check
    [("@H@", { id := "@H@", name := "H", birth_date := some ⟨2005, 1, 1⟩ })]
    { families := [("@F1@",
        { id := "@F1@", husband_id := some "@H@", wife_id := some "@W@" })],
      curr := .stored "@F1@", ctx := some "MARR", msgs := [] }
    ⟨2, "DATE", "1 JAN 2000", "Y"⟩ ⟨2000, 1, 1⟩
    { id := "@F1@", husband_id := some "@H@", wife_id := some "@W@" }
    "@H@" { id := "@H@", name := "H", birth_date := some ⟨2005, 1, 1⟩ }
    ⟨2005, 1, 1⟩ (by decide) rfl (by decide) rfl rfl (by decide) rfl rfl
    rfl).1 rfl

/-- **C2** (amended): a `DATE` record (at depth ≥ 2, with a current entity
and a parseable argument) writes the birth (resp. death) date field exactly
when the person builder's remembered context is `BIRT` (resp. `DEAT`), and
the divorce date exactly when the family builder's context is `DIV`; for the
marriage date the context `MARR` is *necessary but not sufficient* — the
amendment — because the write additionally requires the eager
marriage-after-birth check to pass (on a failing check the findings are
appended and no field is written).  Under any other context the record is
silently ignored, and a record whose level is below 2 first clears the
remembered context, so such a `DATE` writes no field. -/
theorem C2_context_attribution (ppl : List (String × PersonRec)) :
    (∀ (sp : PeopleState) (r : Record) (d : Date) (p : PersonRec),
       ¬ r.valid = "N" → r.tag = "DATE" → ¬ r.level < 2 →
       parseDate r.args = some d → sp.getCurr = some p →
       (sp.ctx = some "BIRT" → ∃ s2, People.processLine sp r = .ok s2 ∧
          s2.getCurr = some { p with birth_date := some d } ∧ s2.ctx = sp.ctx) ∧
       (sp.ctx = some "DEAT" → ∃ s2, People.processLine sp r = .ok s2 ∧
          s2.getCurr = some { p with death_date := some d } ∧ s2.ctx = sp.ctx) ∧
       (¬ sp.ctx = some "BIRT" → ¬ sp.ctx = some "DEAT" →
          People.processLine sp r = .ok sp)) ∧
    (∀ (sf : FamiliesState) (r : Record) (d : Date) (f : FamRec),
       ¬ r.valid = "N" → r.tag = "DATE" → ¬ r.level < 2 →
       parseDate r.args = some d → sf.getCurr = some f →
       (sf.ctx = some "DIV" → ∃ s2, Families.processLine ppl sf r = .ok s2 ∧
          s2.getCurr = some { f with divorced_date := some d } ∧
          s2.msgs = sf.msgs ∧ s2.ctx = sf.ctx) ∧
       (sf.ctx = some "MARR" → ∀ pass ms,
          isValidMarriedDate ppl f d = .ok (pass, ms) →
          (pass = true → ∃ s2, Families.processLine ppl sf r = .ok s2 ∧
             s2.getCurr = some { f with married_date := some d } ∧
             s2.msgs = sf.msgs ++ ms ∧ s2.ctx = sf.ctx) ∧
          (pass = false → Families.processLine ppl sf r =
             .ok { sf with msgs := sf.msgs ++ ms })) ∧
       (¬ sf.ctx = some "MARR" → ¬ sf.ctx = some "DIV" →
          Families.processLine ppl sf r = .ok sf)) ∧
    (∀ (sp : PeopleState) (r : Record), ¬ r.valid = "N" → r.level < 2 →
       r.tag = "DATE" → People.processLine sp r = .ok { sp with ctx := none }) ∧
    (∀ (sf : FamiliesState) (r : Record) (d : Date), ¬ r.valid = "N" →
       r.level < 2 → r.tag = "DATE" → parseDate r.args = some d →
       Families.processLine ppl sf r = .ok { sf with ctx := none }) := by
  refine ⟨?_, ?_, ?_, ?_⟩
  · intro sp r d p hv ht hl hp hf
    have hlr : People.levelReset sp r = sp := peopleLevelReset_high sp r hl
    refine ⟨?_, ?_, ?_⟩
    · intro hb
      obtain ⟨s2, hm, hg, hctx2⟩ := peopleMutateOrErr_spec sp .attrErr
        (fun q => { q with birth_date := some d }) p hf
      refine ⟨s2, ?_, hg, hctx2⟩
      cases hcur : sp.curr with
      | none => simp [PeopleState.getCurr, hcur] at hf
      | stored k =>
        simp only [People.processLine, if_neg hv, ht, hlr, hb, hcur, hp]
        simp only [← hcur]
        exact hm
      | detached q =>
        simp only [People.processLine, if_neg hv, ht, hlr, hb, hcur, hp]
        simp only [← hcur]
        exact hm
    · intro hb
      have hnb : ¬ sp.ctx = some "BIRT" := by rw [hb]; simp
      obtain ⟨s2, hm, hg, hctx2⟩ := peopleMutateOrErr_spec sp .attrErr
        (fun q => { q with death_date := some d }) p hf
      refine ⟨s2, ?_, hg, hctx2⟩
      cases hcur : sp.curr with
      | none => simp [PeopleState.getCurr, hcur] at hf
      | stored k =>
        simp only [People.processLine, if_neg hv, ht, hlr, hnb, hb, hcur, hp]
        simp only [← hcur]
        exact hm
      | detached q =>
        simp only [People.processLine, if_neg hv, ht, hlr, hnb, hb, hcur, hp]
        simp only [← hcur]
        exact hm
    · intro hb1 hb2
      simp [People.processLine, hv, ht, hlr, hb1, hb2]
  · intro sf r d f hv ht hl hp hf
    have hlr : Families.levelReset sf r = sf := famLevelReset_high sf r hl
    have hpl : Families.processLine ppl sf r = Families.dateStep ppl sf d := by
      simp [Families.processLine, hv, ht, hlr, hp]
    refine ⟨?_, ?_, ?_⟩
    · intro hd
      have hnm : ¬ sf.ctx = some "MARR" := by rw [hd]; simp
      obtain ⟨s2, hm, hg, hctx2, hmsgs2⟩ := famMutateOrErr_spec sf
        .typeErr (fun fr => { fr with divorced_date := some d }) f hf
      refine ⟨s2, ?_, hg, hmsgs2, hctx2⟩
      rw [hpl]
      simp only [Families.dateStep, hnm, hd, if_neg, if_pos]
      exact hm
    · intro hm0 pass ms hq
      constructor
      · intro hpass
        subst hpass
        obtain ⟨s2, hm, hg, hctx2, hmsgs2⟩ := famMutateOrErr_spec
          ({ sf with msgs := sf.msgs ++ ms }) .typeErr
          (fun fr => { fr with married_date := some d }) f hf
        rw [hm0] at hm
        refine ⟨s2, ?_, hg, hmsgs2, hctx2⟩
        rw [hpl]
        simp only [Families.dateStep, hm0, hf, hq, if_pos]
        exact hm
      · intro hpass
        subst hpass
        rw [hpl]
        simp only [Families.dateStep, hm0, hf, hq]
        simp
    · intro hb1 hb2
      rw [hpl]
      simp [Families.dateStep, hb1, hb2]
  · intro sp r hv hl ht
    have hlr : People.levelReset sp r = { sp with ctx := none } :=
      peopleLevelReset_low sp r hl
    simp [People.processLine, hv, ht, hlr]
  · intro sf r d hv hl ht hp
    have hlr : Families.levelReset sf r = { sf with ctx := none } :=
      famLevelReset_low sf r hl
    simp [Families.processLine, hv, ht, hlr, hp, Families.dateStep]

/-- Counterexample to C2 as stated: a `DATE` record under `MARR` context
does *not* always write the marriage date — here the husband's birth date
(2000) lies after the proposed marriage date (1990), the eager check fails,
one finding is emitted, and the stored family (and the whole mapping) keeps
`married_date = none`, refuting the "if" direction of the claimed
equivalence for the marriage field. -/
theorem C2_counterexample :
    Families.processLine
      [("@H@", { id := "@H@", name := "H", birth_date := some ⟨2000, 1, 1⟩ })]
      { families := [("@F9@",
          { id := "@F9@", husband_id := some "@H@", wife_id := some "@W@" })],
        curr := .stored "@F9@", ctx := some "MARR", msgs := [] }
      ⟨2, "DATE", "6 MAY 1990", "Y"⟩ =
    .ok { families := [("@F9@",
            { id := "@F9@", husband_id := some "@H@", wife_id := some "@W@" })],
          curr := .stored "@F9@", ctx := some "MARR",
          msgs := [us02Finding
            { id := "@H@", name := "H", birth_date := some ⟨2000, 1, 1⟩ }] } ∧
    FamRec.married_date
      { id := "@F9@", husband_id := some "@H@", wife_id := some "@W@" } =
      none :=
  ⟨rfl, rfl⟩

/-- Witness for C2 (amended) at a concrete input: a `DATE` under `BIRT`
context writes the birth date of the current person. -/
theorem C2_context_attribution_witness :
    People.processLine
      { individuals := [("@I1@", { id := "@I1@", name := "Bob" })],
        curr := .stored "@I1@", ctx := some "BIRT" }
      ⟨2, "DATE", "6 MAY 1952", "Y"⟩ =
      .ok { individuals := [("@I1@", { id := "@I1@", name := "Bob", birth_date := some ⟨1952, 5, 6⟩ })], curr := .stored "@I1@", ctx := some "BIRT" } ∧
    PeopleState.getCurr
      { individuals := [("@I1@", { id := "@I1@", name := "Bob", birth_date := some ⟨1952, 5, 6⟩ })], curr := .stored "@I1@", ctx := some "BIRT" } =
      some { id := "@I1@", name := "Bob", birth_date := some ⟨1952, 5, 6⟩ } := by
  obtain ⟨s2, h1, h2, h3⟩ := ((C2_context_attribution []).1
    { individuals := [("@I1@", { id := "@I1@", name := "Bob" })],
      curr := .stored "@I1@", ctx := some "BIRT" }
    ⟨2, "DATE", "6 MAY 1952", "Y"⟩ ⟨1952, 5, 6⟩ { id := "@I1@", name := "Bob" }
    (by decide) rfl (by decide) rfl rfl).1 rfl
  have he : s2 = { individuals := [("@I1@", { id := "@I1@", name := "Bob", birth_date := some ⟨1952, 5, 6⟩ })], curr := .stored "@I1@", ctx := some "BIRT" } :=
    Except.ok.inj (h1.symm.trans rfl)
  subst he
  exact ⟨h1, h2⟩

/-- **C7**: for a family with a stored marriage date, the death-before-
marriage rule checks the husband and the wife independently: a spouse that
resolves in the person mapping and whose death date lies strictly before the
marriage date yields exactly one finding — so both spouses may fire for the
same family, the husband's finding first — while no finding arises from an
unset marriage date, an unset spouse slot, or a spouse without a death date
(every combination of set/unset slots and known/unknown death dates for
resolvable spouses is enumerated below). -/
theorem C7_death_before_marriage (ppl : List (String × PersonRec))
    (f : FamRec) :
    (f.married_date = none → deathBeforeMarriageRule ppl f = .ok []) ∧
    (∀ md, f.married_date = some md →
      (f.husband_id = none → f.wife_id = none →
         deathBeforeMarriageRule ppl f = .ok []) ∧
      (∀ hid husb, f.husband_id = some hid → alLookup ppl hid = some husb →
         husb.death_date = none → f.wife_id = none →
         deathBeforeMarriageRule ppl f = .ok []) ∧
      (∀ hid husb hdd, f.husband_id = some hid → alLookup ppl hid = some husb →
         husb.death_date = some hdd → f.wife_id = none →
         deathBeforeMarriageRule ppl f =
           .ok (if Date.lt hdd md then [us05Finding f husb] else [])) ∧
      (∀ wid wife, f.husband_id = none → f.wife_id = some wid →
         alLookup ppl wid = some wife → wife.death_date = none →
         deathBeforeMarriageRule ppl f = .ok []) ∧
      (∀ wid wife wdd, f.husband_id = none → f.wife_id = some wid →
         alLookup ppl wid = some wife → wife.death_date = some wdd →
         deathBeforeMarriageRule ppl f =
           .ok (if Date.lt wdd md then [us05Finding f wife] else [])) ∧
      (∀ hid husb wid wife,
         f.husband_id = some hid → alLookup ppl hid = some husb →
         f.wife_id = some wid → alLookup ppl wid = some wife →
         husb.death_date = none → wife.death_date = none →
         deathBeforeMarriageRule ppl f = .ok []) ∧
      (∀ hid husb wid wife wdd,
         f.husband_id = some hid → alLookup ppl hid = some husb →
         f.wife_id = some wid → alLookup ppl wid = some wife →
         husb.death_date = none → wife.death_date = some wdd →
         deathBeforeMarriageRule ppl f =
           .ok (if Date.lt wdd md then [us05Finding f wife] else [])) ∧
      (∀ hid husb wid wife hdd,
         f.husband_id = some hid → alLookup ppl hid = some husb →
         f.wife_id = some wid → alLookup ppl wid = some wife →
         husb.death_date = some hdd → wife.death_date = none →
         deathBeforeMarriageRule ppl f =
           .ok (if Date.lt hdd md then [us05Finding f husb] else [])) ∧
      (∀ hid husb wid wife hdd wdd,
         f.husband_id = some hid → alLookup ppl hid = some husb →
         f.wife_id = some wid → alLookup ppl wid = some wife →
         husb.death_date = some hdd → wife.death_date = some wdd →
         deathBeforeMarriageRule ppl f =
           .ok ((if Date.lt hdd md then [us05Finding f husb] else []) ++
                (if Date.lt wdd md then [us05Finding f wife] else [])))) := by
  constructor
  · intro hm
    simp [deathBeforeMarriageRule, hm]
  · intro md hm
    refine ⟨?_, ?_, ?_, ?_, ?_, ?_, ?_, ?_, ?_⟩
    · intro hh hw
      simp [deathBeforeMarriageRule, hm, hh, hw]
    · intro hid husb hh hhl hhd hw
      simp [deathBeforeMarriageRule, deathFindingOf, hm, hh, hhl, hhd, hw]
    · intro hid husb hdd hh hhl hhd hw
      simp [deathBeforeMarriageRule, deathFindingOf, hm, hh, hhl, hhd, hw]
    · intro wid wife hh hw hwl hwd
      simp [deathBeforeMarriageRule, deathFindingOf, hm, hh, hw, hwl, hwd]
    · intro wid wife wdd hh hw hwl hwd
      simp [deathBeforeMarriageRule, deathFindingOf, hm, hh, hw, hwl, hwd]
    · intro hid husb wid wife hh hhl hw hwl hhd hwd
      simp [deathBeforeMarriageRule, deathFindingOf, hm, hh, hhl, hw, hwl, hhd,
        hwd]
    · intro hid husb wid wife wdd hh hhl hw hwl hhd hwd
      simp [deathBeforeMarriageRule, deathFindingOf, hm, hh, hhl, hw, hwl, hhd,
        hwd]
    · intro hid husb wid wife hdd hh hhl hw hwl hhd hwd
      simp [deathBeforeMarriageRule, deathFindingOf, hm, hh, hhl, hw, hwl, hhd,
        hwd]
    · intro hid husb wid wife hdd wdd hh hhl hw hwl hhd hwd
      simp [deathBeforeMarriageRule, deathFindingOf, hm, hh, hhl, hw, hwl, hhd,
        hwd]

/-- Witness for C7 at concrete inputs: a family where both spouses died
strictly before the marriage date fires exactly two findings, the husband's
first; and a family with a living husband and a wife dead before the
marriage (the spec's §8 scenario) fires exactly one finding naming the
wife. -/
theorem C7_death_before_marriage_witness :
    deathBeforeMarriageRule
      [("@H@", { id := "@H@", name := "H", death_date := some ⟨2010, 1, 1⟩ }),
       ("@W@", { id := "@W@", name := "W", death_date := some ⟨2011, 1, 1⟩ })]
      { id := "@F1@", husband_id := some "@H@", wife_id := some "@W@",
        married_date := some ⟨2012, 2, 10⟩ } =
    .ok [us05Finding
           { id := "@F1@", husband_id := some "@H@", wife_id := some "@W@",
             married_date := some ⟨2012, 2, 10⟩ }
           { id := "@H@", name := "H", death_date := some ⟨2010, 1, 1⟩ },
         us05Finding
           { id := "@F1@", husband_id := some "@H@", wife_id := some "@W@",
             married_date := some ⟨2012, 2, 10⟩ }
           { id := "@W@", name := "W", death_date := some ⟨2011, 1, 1⟩ }] ∧
    deathBeforeMarriageRule
      [("@H2@", { id := "@H2@", name := "H2" }),
       ("@W2@", { id := "@W2@", name := "W2", death_date := some ⟨2010, 8, 17⟩ })]
      { id := "@F2@", husband_id := some "@H2@", wife_id := some "@W2@",
        married_date := some ⟨2012, 2, 10⟩ } =
    .ok [us05Finding
           { id := "@F2@", husband_id := some "@H2@", wife_id := some "@W2@",
             married_date := some ⟨2012, 2, 10⟩ }
           { id := "@W2@", name := "W2", death_date := some ⟨2010, 8, 17⟩ }] :=
  ⟨((C7_death_before_marriage
      [("@H@", { id := "@H@", name := "H", death_date := some ⟨2010, 1, 1⟩ }),
       ("@W@", { id := "@W@", name := "W", death_date := some ⟨2011, 1, 1⟩ })]
      { id := "@F1@", husband_id := some "@H@", wife_id := some "@W@",
        married_date := some ⟨2012, 2, 10⟩ }).2 ⟨2012, 2, 10⟩
      rfl).2.2.2.2.2.2.2.2
      "@H@" { id := "@H@", name := "H", death_date := some ⟨2010, 1, 1⟩ }
      "@W@" { id := "@W@", name := "W", death_date := some ⟨2011, 1, 1⟩ }
      ⟨2010, 1, 1⟩ ⟨2011, 1, 1⟩ rfl rfl rfl rfl rfl rfl,
   ((C7_death_before_marriage
      [("@H2@", { id := "@H2@", name := "H2" }),
       ("@W2@", { id := "@W2@", name := "W2", death_date := some ⟨2010, 8, 17⟩ })]
      { id := "@F2@", husband_id := some "@H2@", wife_id := some "@W2@",
        married_date := some ⟨2012, 2, 10⟩ }).2 ⟨2012, 2, 10⟩
      rfl).2.2.2.2.2.2.1
      "@H2@" { id := "@H2@", name := "H2" }
      "@W2@" { id := "@W2@", name := "W2", death_date := some ⟨2010, 8, 17⟩ }
      ⟨2010, 8, 17⟩ rfl rfl rfl rfl rfl rfl⟩

theorem us26_spouse_ne_child (p q : PersonRec) (a b : String) :
    us26SpouseFinding p a ≠ us26ChildFinding q b := by
  intro h
  have hm := congrArg Finding.message h
  simp only [us26SpouseFinding, us26ChildFinding] at hm
  have e1 : ("corresponding spouse link missing in family " : String) =
      "corresponding s" ++ "pouse link missing in family " := by decide
  have e2 : ("corresponding child link missing in family " : String) =
      "corresponding c" ++ "hild link missing in family " := by decide
  rw [e1, e2, String.append_assoc, String.append_assoc] at hm
  have hd := congrArg String.data hm
  rw [String.data_append, String.data_append] at hd
  have h15 := (List.append_inj hd (by decide)).1
  exact absurd (String.ext h15) (by decide)

theorem us26SpouseFinding_inj (p q : PersonRec) (a b : String)
    (h : us26SpouseFinding p a = us26SpouseFinding q b) : a = b := by
  have hm := congrArg Finding.message h
  simp only [us26SpouseFinding] at hm
  have hd := congrArg String.data hm
  rw [String.data_append, String.data_append] at hd
  exact String.ext (List.append_inj hd rfl).2

theorem us26ChildFinding_inj (p q : PersonRec) (a b : String)
    (h : us26ChildFinding p a = us26ChildFinding q b) : a = b := by
  have hm := congrArg Finding.message h
  simp only [us26ChildFinding] at hm
  have hd := congrArg String.data hm
  rw [String.data_append, String.data_append] at hd
  exact String.ext (List.append_inj hd rfl).2

/-- The finding list a link loop produces, as a pure function of the
per-identifier failure condition. -/
def linkFindings (mk : String → Finding) (bad : String → Bool) :
    List String → List Finding
  | [] => []
  | fid :: rest =>
    (if bad fid then [mk fid] else []) ++ linkFindings mk bad rest

theorem spouseLinkLoop_some (fams : List (String × FamRec)) (p : PersonRec) :
    ∀ l, spouseLinkLoop (some fams) p l =
      .ok (linkFindings (us26SpouseFinding p) (spouseLinkBad fams p) l)
  | [] => rfl
  | fid :: rest => by
    simp [spouseLinkLoop, linkFindings, spouseLinkLoop_some fams p rest]

theorem childLinkLoop_some (fams : List (String × FamRec)) (p : PersonRec) :
    ∀ l, childLinkLoop (some fams) p l =
      .ok (linkFindings (us26ChildFinding p) (childLinkBad fams p) l)
  | [] => rfl
  | fid :: rest => by
    simp [childLinkLoop, linkFindings, childLinkLoop_some fams p rest]

theorem linkFindings_mem (mk : String → Finding) (bad : String → Bool) :
    ∀ l x, x ∈ linkFindings mk bad l → ∃ y ∈ l, x = mk y
  | [], x, hx => absurd hx (List.not_mem_nil x)
  | fid :: rest, x, hx => by
    rw [linkFindings, List.mem_append] at hx
    rcases hx with hx | hx
    · refine ⟨fid, List.mem_cons_self fid rest, ?_⟩
      by_cases hb : bad fid
      · rw [if_pos hb] at hx
        exact List.mem_singleton.mp hx
      · rw [if_neg hb] at hx
        exact absurd hx (List.not_mem_nil x)
    · obtain ⟨y, hy, hxy⟩ := linkFindings_mem mk bad rest x hx
      exact ⟨y, List.mem_cons_of_mem fid hy, hxy⟩

theorem linkFindings_count_not_mem (mk : String → Finding) (bad : String → Bool)
    (hinj : ∀ a b, mk a = mk b → a = b) (l : List String) (fid : String)
    (hno : fid ∉ l) : (linkFindings mk bad l).count (mk fid) = 0 := by
  rw [List.count_eq_zero]
  intro hmem
  obtain ⟨y, hy, hxy⟩ := linkFindings_mem mk bad l (mk fid) hmem
  exact hno (hinj fid y hxy ▸ hy)

theorem linkFindings_count (mk : String → Finding) (bad : String → Bool)
    (hinj : ∀ a b, mk a = mk b → a = b) :
    ∀ l (fid : String), l.Nodup → fid ∈ l →
      (linkFindings mk bad l).count (mk fid) = if bad fid then 1 else 0
  | [], fid, _, hmem => absurd hmem (List.not_mem_nil fid)
  | x :: rest, fid, hnd, hmem => by
    rw [linkFindings, List.count_append]
    rcases List.mem_cons.mp hmem with rfl | hmem2
    · have hno : fid ∉ rest := (List.nodup_cons.mp hnd).1
      rw [linkFindings_count_not_mem mk bad hinj rest fid hno]
      by_cases hb : bad fid
      · rw [if_pos hb, if_pos hb]
        simp
      · rw [if_neg hb, if_neg hb]
        simp
    · have hne : fid ≠ x := by
        rintro rfl
        exact (List.nodup_cons.mp hnd).1 hmem2
      have hzero : (if bad x then [mk x] else []).count (mk fid) = 0 := by
        by_cases hb : bad x
        · rw [if_pos hb, List.count_eq_zero]
          intro hmem3
          exact hne (hinj fid x (List.mem_singleton.mp hmem3))
        · rw [if_neg hb]; rfl
      rw [hzero,
        linkFindings_count mk bad hinj rest fid (List.nodup_cons.mp hnd).2 hmem2]
      simp

/-- **C5**: the referential-integrity rule emits exactly one finding per
spouse-of family identifier whose family record does not list the person as
husband or wife (including an identifier absent from the family mapping),
exactly one finding per child-of family identifier whose child sequence
lacks the person's identifier, and zero findings for a mutual link (the
`if`-conditions below are exactly those mismatch conditions); and when the
family mapping was never wired in, the rule raises (`AttributeError`-kind
error) as soon as there is any link to check, rather than silently
skipping. -/
theorem C5_referential_integrity (fams : List (String × FamRec))
    (p : PersonRec) (ms : List Finding) (hs : p.spouse_of_families.Nodup)
    (hc : p.child_of_families.Nodup)
    (hok : correspondingEntriesRule (some fams) p = .ok ms) :
    (∀ fid ∈ p.spouse_of_families,
       ms.count (us26SpouseFinding p fid) =
         if spouseLinkBad fams p fid then 1 else 0) ∧
    (∀ fid ∈ p.child_of_families,
       ms.count (us26ChildFinding p fid) =
         if childLinkBad fams p fid then 1 else 0) ∧
    ((¬ p.spouse_of_families = [] ∨ ¬ p.child_of_families = []) →
       correspondingEntriesRule none p = .error .attrErr) := by
  have hms : ms =
      linkFindings (us26SpouseFinding p) (spouseLinkBad fams p)
        p.spouse_of_families ++
      linkFindings (us26ChildFinding p) (childLinkBad fams p)
        p.child_of_families := by
    rw [correspondingEntriesRule, spouseLinkLoop_some, childLinkLoop_some]
      at hok
    exact (Except.ok.inj hok).symm
  subst hms
  refine ⟨?_, ?_, ?_⟩
  · intro fid hmem
    rw [List.count_append,
      linkFindings_count _ _ (fun a b h => us26SpouseFinding_inj p p a b h)
        p.spouse_of_families fid hs hmem]
    have hzero : (linkFindings (us26ChildFinding p) (childLinkBad fams p)
        p.child_of_families).count (us26SpouseFinding p fid) = 0 := by
      rw [List.count_eq_zero]
      intro hmem2
      obtain ⟨y, _, hxy⟩ := linkFindings_mem _ _ _ _ hmem2
      exact absurd hxy (us26_spouse_ne_child p p fid y)
    rw [hzero, Nat.add_zero]
  · intro fid hmem
    rw [List.count_append,
      linkFindings_count _ _ (fun a b h => us26ChildFinding_inj p p a b h)
        p.child_of_families fid hc hmem]
    have hzero : (linkFindings (us26SpouseFinding p) (spouseLinkBad fams p)
        p.spouse_of_families).count (us26ChildFinding p fid) = 0 := by
      rw [List.count_eq_zero]
      intro hmem2
      obtain ⟨y, _, hxy⟩ := linkFindings_mem _ _ _ _ hmem2
      exact absurd hxy.symm (us26_spouse_ne_child p p y fid)
    rw [hzero, Nat.zero_add]
  · intro hlinks
    cases hsp : p.spouse_of_families with
    | cons x rest => simp [correspondingEntriesRule, hsp, spouseLinkLoop]
    | nil =>
      rcases hlinks with hbad | hbad
      · exact absurd hsp hbad
      · cases hch : p.child_of_families with
        | nil => exact absurd hch hbad
        | cons x rest =>
          simp [correspondingEntriesRule, hsp, hch, spouseLinkLoop,
            childLinkLoop]

/-- Witness for C5 at a concrete input: a mutual spouse link yields no
finding, a mismatched one yields exactly one finding, and the unwired rule
raises. -/
theorem C5_referential_integrity_witness :
    List.count
      (us26SpouseFinding
        { id := "@I1@", name := "N", spouse_of_families := ["@F1@", "@F2@"],
          child_of_families := ["@F3@"] } "@F1@")
      [us26SpouseFinding
        { id := "@I1@", name := "N", spouse_of_families := ["@F1@", "@F2@"],
          child_of_families := ["@F3@"] } "@F2@",
       us26ChildFinding
        { id := "@I1@", name := "N", spouse_of_families := ["@F1@", "@F2@"],
          child_of_families := ["@F3@"] } "@F3@"] = 0 ∧
    List.count
      (us26SpouseFinding
        { id := "@I1@", name := "N", spouse_of_families := ["@F1@", "@F2@"],
          child_of_families := ["@F3@"] } "@F2@")
      [us26SpouseFinding
        { id := "@I1@", name := "N", spouse_of_families := ["@F1@", "@F2@"],
          child_of_families := ["@F3@"] } "@F2@",
       us26ChildFinding
        { id := "@I1@", name := "N", spouse_of_families := ["@F1@", "@F2@"],
          child_of_families := ["@F3@"] } "@F3@"] = 1 ∧
    correspondingEntriesRule none
      { id := "@I1@", name := "N", spouse_of_families := ["@F1@", "@F2@"],
        child_of_families := ["@F3@"] } = .error .attrErr := by
  obtain ⟨h1, h2, h3⟩ := C5_referential_integrity
    [("@F1@", { id := "@F1@", husband_id := some "@I1@" }),
     ("@F2@", { id := "@F2@", husband_id := some "@X@", wife_id := some "@Y@" })]
    { id := "@I1@", name := "N", spouse_of_families := ["@F1@", "@F2@"],
      child_of_families := ["@F3@"] }
    [us26SpouseFinding
      { id := "@I1@", name := "N", spouse_of_families := ["@F1@", "@F2@"],
        child_of_families := ["@F3@"] } "@F2@",
     us26ChildFinding
      { id := "@I1@", name := "N", spouse_of_families := ["@F1@", "@F2@"],
        child_of_families := ["@F3@"] } "@F3@"]
    (by decide) (by decide) rfl
  refine ⟨?_, ?_, h3 (Or.inl (by decide))⟩
  · rw [h1 "@F1@" (by decide)]
    decide
  · rw [h1 "@F2@" (by decide)]
    decide

theorem age_gt_149_iff (days : Int) :
    149 < ageFromDays days ↔ 54787 ≤ days := by
  unfold ageFromDays
  rcases le_or_lt 0 days with hpos | hneg
  · rw [Int.tdiv_eq_ediv (by positivity) (by norm_num)]
    constructor
    · intro h
      have h2 : (150 : Int) ≤ days * 10000 / 3652425 := h
      rw [Int.le_ediv_iff_mul_le (by norm_num)] at h2
      omega
    · intro h
      have h2 : (150 : Int) * 3652425 ≤ days * 10000 := by nlinarith
      have h3 := (Int.le_ediv_iff_mul_le (by norm_num : (0:Int) < 3652425)).mpr h2
      omega
  · constructor
    · intro h
      exfalso
      have h1 : days * 10000 = -((-days) * 10000) := by ring
      rw [h1, Int.neg_tdiv] at h
      have h2 : 0 ≤ Int.tdiv ((-days) * 10000) 3652425 :=
        Int.tdiv_nonneg (by nlinarith) (by norm_num)
      omega
    · intro h
      omega

/-- **C6** (amended): for every person with a known derived age, the
age-bound rule emits its finding exactly when the derived age is strictly
greater than 149; for a living person this is equivalent to the elapsed
span from birth to the reference instant being at least 54787 days
(the least day count whose quotient by 365.2425 truncates to 150).  The
amendment: "born exactly 150 calendar years before the reference instant"
does *not* always stay below the bound — a 150-year span containing 37 leap
days has 54787 days and fires (see the counterexample), while one with 36
leap days has 54786 days and does not; the claim's one-day-older person
always fires. -/
theorem C6_age_bound (ref : Date) (p : PersonRec) :
    (∀ a, p.get_age ref = some a →
       ageBoundRule ref p =
         (if 149 < a then
           [{ error_id := "INDIVIDUAL", user_story := "US07",
              user_id := p.id, name := p.name,
              message := "Age should be less than 150" }]
          else [])) ∧
    (p.get_age ref = none → ageBoundRule ref p = []) ∧
    (∀ b, p.birth_date = some b → p.death_date = none →
       (¬ ageBoundRule ref p = [] ↔
         54787 ≤ (rataDie ref : Int) - (rataDie b : Int))) := by
  refine ⟨?_, ?_, ?_⟩
  · intro a ha
    simp [ageBoundRule, ha]
  · intro ha
    simp [ageBoundRule, ha]
  · intro b hb hd
    have hage : p.get_age ref =
        some (ageFromDays ((rataDie ref : Int) - (rataDie b : Int))) := by
      simp [PersonRec.get_age, hb, hd]
    have hrule : ageBoundRule ref p =
        (if 149 < ageFromDays ((rataDie ref : Int) - (rataDie b : Int)) then
          [{ error_id := "INDIVIDUAL", user_story := "US07",
             user_id := p.id, name := p.name,
             message := "Age should be less than 150" }]
         else []) := by
      simp [ageBoundRule, hage]
    rw [hrule]
    by_cases hc : 149 < ageFromDays ((rataDie ref : Int) - (rataDie b : Int))
    · rw [if_pos hc]
      exact iff_of_true (by simp) ((age_gt_149_iff _).mp hc)
    · rw [if_neg hc]
      exact iff_of_false (by simp)
        (fun hle => hc ((age_gt_149_iff _).mpr hle))

/-- Counterexample to C6 as stated: a person born 1874-06-01, checked
against the reference instant 2024-06-01 — exactly 150 calendar years later
— with no death date *does* fire the age-bound rule, because that span
contains 37 leap days (54787 days, age 150). -/
theorem C6_counterexample :
    ¬ ageBoundRule ⟨2024, 6, 1⟩
        { id := "@I1@", name := "B", birth_date := some ⟨1874, 6, 1⟩ } = [] ∧
    1874 + 150 = 2024 :=
  ⟨by decide, by decide⟩

/-- Witness for C6 (amended) at concrete inputs: born 1790-06-01 against
reference 1940-06-01 (a 150-year span with only 36 leap days, 54786 days)
the rule stays silent, and one day more (reference 1940-06-02) it fires. -/
theorem C6_age_bound_witness :
    ageBoundRule ⟨1940, 6, 1⟩
      { id := "@I2@", name := "B", birth_date := some ⟨1790, 6, 1⟩ } = [] ∧
    ¬ ageBoundRule ⟨1940, 6, 2⟩
      { id := "@I2@", name := "B", birth_date := some ⟨1790, 6, 1⟩ } = [] := by
  have h1 := (C6_age_bound ⟨1940, 6, 1⟩
    { id := "@I2@", name := "B", birth_date := some ⟨1790, 6, 1⟩ }).2.2
    ⟨1790, 6, 1⟩ rfl rfl
  have h2 := (C6_age_bound ⟨1940, 6, 2⟩
    { id := "@I2@", name := "B", birth_date := some ⟨1790, 6, 1⟩ }).2.2
    ⟨1790, 6, 1⟩ rfl rfl
  constructor
  · by_contra hne
    exact absurd (h1.mp hne) (by decide)
  · exact h2.mpr (by decide)

theorem charListLe_trans :
    ∀ as bs cs, charListLe as bs = true → charListLe bs cs = true →
      charListLe as cs = true
  | [], _, _, _, _ => rfl
  | _ :: _, [], _, h1, _ => by simp [charListLe] at h1
  | _ :: _, _ :: _, [], _, h2 => by simp [charListLe] at h2
  | a :: as, b :: bs, c :: cs, h1, h2 => by
    simp only [charListLe] at h1 h2 ⊢
    by_cases hab : a < b
    · by_cases hbc : b < c
      · rw [if_pos (lt_trans hab hbc)]
      · by_cases hcb : c < b
        · rw [if_neg hbc, if_pos hcb] at h2
          exact absurd h2 (by simp)
        · have hbceq : b = c := le_antisymm (not_lt.mp hcb) (not_lt.mp hbc)
          subst hbceq
          rw [if_pos hab]
    · by_cases hba : b < a
      · rw [if_neg hab, if_pos hba] at h1
        exact absurd h1 (by simp)
      · have habeq : a = b := le_antisymm (not_lt.mp hba) (not_lt.mp hab)
        subst habeq
        rw [if_neg hab, if_neg hba] at h1
        by_cases hbc : a < c
        · rw [if_pos hbc]
        · by_cases hcb : c < a
          · rw [if_neg hbc, if_pos hcb] at h2
            exact absurd h2 (by simp)
          · rw [if_neg hbc, if_neg hcb] at h2 ⊢
            exact charListLe_trans as bs cs h1 h2

theorem charListLe_total :
    ∀ as bs, charListLe as bs = true ∨ charListLe bs as = true
  | [], _ => Or.inl rfl
  | _ :: _, [] => Or.inr rfl
  | a :: as, b :: bs => by
    simp only [charListLe]
    by_cases hab : a < b
    · exact Or.inl (by rw [if_pos hab])
    · by_cases hba : b < a
      · exact Or.inr (by rw [if_pos hba])
      · rw [if_neg hab, if_neg hba, if_neg hba, if_neg hab]
        exact charListLe_total as bs

theorem strLeb_trans (a b c : String) (h1 : strLeb a b = true)
    (h2 : strLeb b c = true) : strLeb a c = true :=
  charListLe_trans a.data b.data c.data h1 h2

theorem strLeb_total (a b : String) : strLeb a b = true ∨ strLeb b a = true :=
  charListLe_total a.data b.data

theorem insertSorted_mem (x y : String) :
    ∀ l, y ∈ insertSorted x l ↔ y = x ∨ y ∈ l
  | [] => by simp [insertSorted]
  | z :: zs => by
    by_cases h : strLeb x z
    · simp [insertSorted, h]
    · simp only [insertSorted, if_neg h, List.mem_cons, insertSorted_mem x y zs]
      tauto

theorem insertSorted_pairwise (x : String) :
    ∀ l, l.Pairwise (fun a b => strLeb a b = true) →
      (insertSorted x l).Pairwise (fun a b => strLeb a b = true)
  | [], _ => by simp [insertSorted]
  | z :: zs, hp => by
    obtain ⟨hz, hzs⟩ := List.pairwise_cons.mp hp
    by_cases h : strLeb x z
    · rw [insertSorted, if_pos h]
      refine List.pairwise_cons.mpr ⟨?_, hp⟩
      intro y hy
      rcases List.mem_cons.mp hy with rfl | hy2
      · exact h
      · exact strLeb_trans x z y h (hz y hy2)
    · rw [insertSorted, if_neg h]
      have hzx : strLeb z x = true := by
        rcases strLeb_total x z with h0 | h0
        · exact absurd h0 h
        · exact h0
      refine List.pairwise_cons.mpr ⟨?_, insertSorted_pairwise x zs hzs⟩
      intro y hy
      rcases (insertSorted_mem x y zs).mp hy with rfl | hy2
      · exact hzx
      · exact hz y hy2

theorem sortKeys_pairwise :
    ∀ l, (sortKeys l).Pairwise (fun a b => strLeb a b = true)
  | [] => List.Pairwise.nil
  | x :: xs => insertSorted_pairwise x (sortKeys xs) (sortKeys_pairwise xs)

theorem deathFindingOf_mem (fnd : Finding) (dOpt : Option Date) (cutoff : Date)
    (m : Finding) (hm : m ∈ deathFindingOf fnd dOpt cutoff) : m = fnd := by
  unfold deathFindingOf at hm
  split at hm
  · simp at hm
  · split at hm
    · exact List.mem_singleton.mp hm
    · simp at hm

theorem birthBeforeDeathRule_uid (p : PersonRec) (m : Finding)
    (hm : m ∈ birthBeforeDeathRule p) : m.user_id = p.id := by
  unfold birthBeforeDeathRule at hm
  repeat' split at hm
  all_goals first
    | exact absurd hm (List.not_mem_nil m)
    | rw [List.mem_singleton.mp hm]

theorem ageBoundRule_uid (ref : Date) (p : PersonRec) (m : Finding)
    (hm : m ∈ ageBoundRule ref p) : m.user_id = p.id := by
  unfold ageBoundRule at hm
  repeat' split at hm
  all_goals first
    | exact absurd hm (List.not_mem_nil m)
    | rw [List.mem_singleton.mp hm]

theorem birthNotFutureRule_uid (ref : Date) (p : PersonRec) (m : Finding)
    (hm : m ∈ birthNotFutureRule ref p) : m.user_id = p.id := by
  unfold birthNotFutureRule at hm
  repeat' split at hm
  all_goals first
    | exact absurd hm (List.not_mem_nil m)
    | rw [List.mem_singleton.mp hm]

theorem deathNotFutureRule_uid (ref : Date) (p : PersonRec) (m : Finding)
    (hm : m ∈ deathNotFutureRule ref p) : m.user_id = p.id := by
  unfold deathNotFutureRule at hm
  repeat' split at hm
  all_goals first
    | exact absurd hm (List.not_mem_nil m)
    | rw [List.mem_singleton.mp hm]

theorem siblingMarriageRule_uid (p : PersonRec) (m : Finding)
    (hm : m ∈ siblingMarriageRule p) : m.user_id = p.id := by
  unfold siblingMarriageRule at hm
  repeat' split at hm
  all_goals first
    | exact absurd hm (List.not_mem_nil m)
    | rw [List.mem_singleton.mp hm]

theorem perPersonPure_uid (ref : Date) (p : PersonRec) (m : Finding)
    (hm : m ∈ perPersonPure ref p) : m.user_id = p.id := by
  unfold perPersonPure at hm
  rcases List.mem_append.mp hm with hm1 | hm1
  · rcases List.mem_append.mp hm1 with hm2 | hm2
    · rcases List.mem_append.mp hm2 with hm3 | hm3
      · rcases List.mem_append.mp hm3 with hm4 | hm4
        · exact birthBeforeDeathRule_uid p m hm4
        · exact ageBoundRule_uid ref p m hm4
      · exact birthNotFutureRule_uid ref p m hm3
    · exact deathNotFutureRule_uid ref p m hm2
  · exact siblingMarriageRule_uid p m hm1

theorem correspondingEntriesRule_uid (fams : List (String × FamRec))
    (p : PersonRec) (ms : List Finding) (m : Finding)
    (h : correspondingEntriesRule (some fams) p = .ok ms) (hm : m ∈ ms) :
    m.user_id = p.id := by
  rw [correspondingEntriesRule, spouseLinkLoop_some, childLinkLoop_some] at h
  obtain rfl := (Except.ok.inj h).symm
  rcases List.mem_append.mp hm with hm2 | hm2
  · obtain ⟨y, _, rfl⟩ := linkFindings_mem _ _ _ _ hm2
    rfl
  · obtain ⟨y, _, rfl⟩ := linkFindings_mem _ _ _ _ hm2
    rfl

theorem deathBeforeMarriageRule_uid (ppl : List (String × PersonRec))
    (f : FamRec) (ms : List Finding) (m : Finding)
    (h : deathBeforeMarriageRule ppl f = .ok ms) (hm : m ∈ ms) :
    m.user_id = f.id := by
  cases hmd : f.married_date with
  | none =>
    simp only [deathBeforeMarriageRule, hmd] at h
    obtain rfl := (Except.ok.inj h).symm
    exact absurd hm (List.not_mem_nil m)
  | some md =>
    cases hh : f.husband_id with
    | none =>
      cases hw : f.wife_id with
      | none =>
        simp only [deathBeforeMarriageRule, hmd, hh, hw] at h
        obtain rfl := (Except.ok.inj h).symm
        exact absurd hm (List.not_mem_nil m)
      | some wid =>
        cases hwl : alLookup ppl wid with
        | none => simp [deathBeforeMarriageRule, hmd, hh, hw, hwl] at h
        | some wife =>
          simp only [deathBeforeMarriageRule, hmd, hh, hw, hwl,
            List.nil_append] at h
          obtain rfl := (Except.ok.inj h).symm
          rw [deathFindingOf_mem _ _ _ _ hm]
          rfl
    | some hid =>
      cases hhl : alLookup ppl hid with
      | none => simp [deathBeforeMarriageRule, hmd, hh, hhl] at h
      | some husb =>
        cases hw : f.wife_id with
        | none =>
          simp only [deathBeforeMarriageRule, hmd, hh, hhl, hw,
            List.append_nil] at h
          obtain rfl := (Except.ok.inj h).symm
          rw [deathFindingOf_mem _ _ _ _ hm]
          rfl
        | some wid =>
          cases hwl : alLookup ppl wid with
          | none => simp [deathBeforeMarriageRule, hmd, hh, hhl, hw, hwl] at h
          | some wife =>
            simp only [deathBeforeMarriageRule, hmd, hh, hhl, hw, hwl] at h
            obtain rfl := (Except.ok.inj h).symm
            rcases List.mem_append.mp hm with hm2 | hm2
            · rw [deathFindingOf_mem _ _ _ _ hm2]; rfl
            · rw [deathFindingOf_mem _ _ _ _ hm2]; rfl

theorem deathBeforeDivorceRule_uid (ppl : List (String × PersonRec))
    (f : FamRec) (ms : List Finding) (m : Finding)
    (h : deathBeforeDivorceRule ppl f = .ok ms) (hm : m ∈ ms) :
    m.user_id = f.id := by
  cases hmd : f.divorced_date with
  | none =>
    simp only [deathBeforeDivorceRule, hmd] at h
    obtain rfl := (Except.ok.inj h).symm
    exact absurd hm (List.not_mem_nil m)
  | some dv =>
    cases hh : f.husband_id with
    | none =>
      cases hw : f.wife_id with
      | none =>
        simp only [deathBeforeDivorceRule, hmd, hh, hw] at h
        obtain rfl := (Except.ok.inj h).symm
        exact absurd hm (List.not_mem_nil m)
      | some wid =>
        cases hwl : alLookup ppl wid with
        | none => simp [deathBeforeDivorceRule, hmd, hh, hw, hwl] at h
        | some wife =>
          simp only [deathBeforeDivorceRule, hmd, hh, hw, hwl,
            List.nil_append] at h
          obtain rfl := (Except.ok.inj h).symm
          rw [deathFindingOf_mem _ _ _ _ hm]
          rfl
    | some hid =>
      cases hhl : alLookup ppl hid with
      | none => simp [deathBeforeDivorceRule, hmd, hh, hhl] at h
      | some husb =>
        cases hw : f.wife_id with
        | none =>
          simp only [deathBeforeDivorceRule, hmd, hh, hhl, hw,
            List.append_nil] at h
          obtain rfl := (Except.ok.inj h).symm
          rw [deathFindingOf_mem _ _ _ _ hm]
          rfl
        | some wid =>
          cases hwl : alLookup ppl wid with
          | none => simp [deathBeforeDivorceRule, hmd, hh, hhl, hw, hwl] at h
          | some wife =>
            simp only [deathBeforeDivorceRule, hmd, hh, hhl, hw, hwl] at h
            obtain rfl := (Except.ok.inj h).symm
            rcases List.mem_append.mp hm with hm2 | hm2
            · rw [deathFindingOf_mem _ _ _ _ hm2]; rfl
            · rw [deathFindingOf_mem _ _ _ _ hm2]; rfl

theorem charListLe_refl : ∀ l : List Char, charListLe l l = true
  | [] => rfl
  | a :: as => by
    rw [charListLe, if_neg (lt_irrefl a), if_neg (lt_irrefl a)]
    exact charListLe_refl as

theorem strLeb_refl (a : String) : strLeb a a = true :=
  charListLe_refl a.data

theorem pairwise_of_all_eq {l : List String} {k : String}
    (h : ∀ x ∈ l, x = k) : l.Pairwise (fun a b => strLeb a b = true) := by
  induction l with
  | nil => exact List.Pairwise.nil
  | cons x xs ih =>
    refine List.pairwise_cons.mpr ⟨?_, ih fun y hy => h y (List.mem_cons_of_mem x hy)⟩
    intro y hy
    rw [h x (List.mem_cons_self x xs), h y (List.mem_cons_of_mem x hy)]
    exact strLeb_refl k

theorem famPassAux_ok_mem (ppl : List (String × PersonRec))
    (fams : List (String × FamRec))
    (hids : ∀ k f, alLookup fams k = some f → f.id = k) :
    ∀ ks ms, famPassAux ppl fams ks = .ok ms →
      ∀ m ∈ ms, m.user_id ∈ ks
  | [], ms, h, m, hm => by
    simp only [famPassAux] at h
    obtain rfl := (Except.ok.inj h).symm
    exact absurd hm (List.not_mem_nil m)
  | k :: ks, ms, h, m, hm => by
    simp only [famPassAux] at h
    cases hlk : alLookup fams k with
    | none => simp [hlk] at h
    | some f =>
      cases h1 : deathBeforeMarriageRule ppl f with
      | error e => simp [hlk, h1] at h
      | ok m1 =>
        cases h2 : deathBeforeDivorceRule ppl f with
        | error e => simp [hlk, h1, h2] at h
        | ok m2 =>
          cases h3 : famPassAux ppl fams ks with
          | error e => simp [hlk, h1, h2, h3] at h
          | ok rest =>
            simp only [hlk, h1, h2, h3] at h
            obtain rfl := (Except.ok.inj h).symm
            rcases List.mem_append.mp hm with hm2 | hm2
            · rcases List.mem_append.mp hm2 with hm3 | hm3
              · rw [deathBeforeMarriageRule_uid ppl f m1 m h1 hm3, hids k f hlk]
                exact List.mem_cons_self k ks
              · rw [deathBeforeDivorceRule_uid ppl f m2 m h2 hm3, hids k f hlk]
                exact List.mem_cons_self k ks
            · exact List.mem_cons_of_mem k
                (famPassAux_ok_mem ppl fams hids ks rest h3 m hm2)

theorem famPassAux_pairwise (ppl : List (String × PersonRec))
    (fams : List (String × FamRec))
    (hids : ∀ k f, alLookup fams k = some f → f.id = k) :
    ∀ ks ms, ks.Pairwise (fun a b => strLeb a b = true) →
      famPassAux ppl fams ks = .ok ms →
      (ms.map Finding.user_id).Pairwise (fun a b => strLeb a b = true)
  | [], ms, _, h => by
    simp only [famPassAux] at h
    obtain rfl := (Except.ok.inj h).symm
    exact List.Pairwise.nil
  | k :: ks, ms, hp, h => by
    obtain ⟨hk, hks⟩ := List.pairwise_cons.mp hp
    simp only [famPassAux] at h
    cases hlk : alLookup fams k with
    | none => simp [hlk] at h
    | some f =>
      cases h1 : deathBeforeMarriageRule ppl f with
      | error e => simp [hlk, h1] at h
      | ok m1 =>
        cases h2 : deathBeforeDivorceRule ppl f with
        | error e => simp [hlk, h1, h2] at h
        | ok m2 =>
          cases h3 : famPassAux ppl fams ks with
          | error e => simp [hlk, h1, h2, h3] at h
          | ok rest =>
            simp only [hlk, h1, h2, h3] at h
            obtain rfl := (Except.ok.inj h).symm
            rw [List.map_append, List.pairwise_append]
            refine ⟨?_, famPassAux_pairwise ppl fams hids ks rest hks h3, ?_⟩
            · apply pairwise_of_all_eq (k := k)
              intro x hx
              obtain ⟨m, hm, rfl⟩ := List.mem_map.mp hx
              rcases List.mem_append.mp hm with hmm | hmm
              · rw [deathBeforeMarriageRule_uid ppl f m1 m h1 hmm, hids k f hlk]
              · rw [deathBeforeDivorceRule_uid ppl f m2 m h2 hmm, hids k f hlk]
            · intro a ha b hb
              obtain ⟨m, hm, rfl⟩ := List.mem_map.mp ha
              obtain ⟨mx, hmx, rfl⟩ := List.mem_map.mp hb
              have ha2 : m.user_id = k := by
                rcases List.mem_append.mp hm with hmm | hmm
                · rw [deathBeforeMarriageRule_uid ppl f m1 m h1 hmm, hids k f hlk]
                · rw [deathBeforeDivorceRule_uid ppl f m2 m h2 hmm, hids k f hlk]
              rw [ha2]
              exact hk mx.user_id
                (famPassAux_ok_mem ppl fams hids ks rest h3 mx hmx)

theorem peoplePassAux_ok_mem (fams : List (String × FamRec)) (ref : Date)
    (ppl : List (String × PersonRec))
    (hids : ∀ k p, alLookup ppl k = some p → p.id = k) :
    ∀ ks ms, peoplePassAux (some fams) ref ppl ks = .ok ms →
      ∀ m ∈ ms, m.user_id ∈ ks
  | [], ms, h, m, hm => by
    simp only [peoplePassAux] at h
    obtain rfl := (Except.ok.inj h).symm
    exact absurd hm (List.not_mem_nil m)
  | k :: ks, ms, h, m, hm => by
    simp only [peoplePassAux] at h
    cases hlk : alLookup ppl k with
    | none => simp [hlk] at h
    | some p =>
      cases h1 : correspondingEntriesRule (some fams) p with
      | error e => simp [hlk, h1] at h
      | ok mc =>
        cases h3 : peoplePassAux (some fams) ref ppl ks with
        | error e => simp [hlk, h1, h3] at h
        | ok rest =>
          simp only [hlk, h1, h3] at h
          obtain rfl := (Except.ok.inj h).symm
          rcases List.mem_append.mp hm with hm2 | hm2
          · rcases List.mem_append.mp hm2 with hm3 | hm3
            · rw [perPersonPure_uid ref p m hm3, hids k p hlk]
              exact List.mem_cons_self k ks
            · rw [correspondingEntriesRule_uid fams p mc m h1 hm3, hids k p hlk]
              exact List.mem_cons_self k ks
          · exact List.mem_cons_of_mem k
              (peoplePassAux_ok_mem fams ref ppl hids ks rest h3 m hm2)

theorem peoplePassAux_pairwise (fams : List (String × FamRec)) (ref : Date)
    (ppl : List (String × PersonRec))
    (hids : ∀ k p, alLookup ppl k = some p → p.id = k) :
    ∀ ks ms, ks.Pairwise (fun a b => strLeb a b = true) →
      peoplePassAux (some fams) ref ppl ks = .ok ms →
      (ms.map Finding.user_id).Pairwise (fun a b => strLeb a b = true)
  | [], ms, _, h => by
    simp only [peoplePassAux] at h
    obtain rfl := (Except.ok.inj h).symm
    exact List.Pairwise.nil
  | k :: ks, ms, hp, h => by
    obtain ⟨hk, hks⟩ := List.pairwise_cons.mp hp
    simp only [peoplePassAux] at h
    cases hlk : alLookup ppl k with
    | none => simp [hlk] at h
    | some p =>
      cases h1 : correspondingEntriesRule (some fams) p with
      | error e => simp [hlk, h1] at h
      | ok mc =>
        cases h3 : peoplePassAux (some fams) ref ppl ks with
        | error e => simp [hlk, h1, h3] at h
        | ok rest =>
          simp only [hlk, h1, h3] at h
          obtain rfl := (Except.ok.inj h).symm
          rw [List.map_append, List.pairwise_append]
          refine ⟨?_,
            peoplePassAux_pairwise fams ref ppl hids ks rest hks h3, ?_⟩
          · apply pairwise_of_all_eq (k := k)
            intro x hx
            obtain ⟨m, hm, rfl⟩ := List.mem_map.mp hx
            rcases List.mem_append.mp hm with hmm | hmm
            · rw [perPersonPure_uid ref p m hmm, hids k p hlk]
            · rw [correspondingEntriesRule_uid fams p mc m h1 hmm, hids k p hlk]
          · intro a ha b hb
            obtain ⟨m, hm, rfl⟩ := List.mem_map.mp ha
            obtain ⟨mx, hmx, rfl⟩ := List.mem_map.mp hb
            have ha2 : m.user_id = k := by
              rcases List.mem_append.mp hm with hmm | hmm
              · rw [perPersonPure_uid ref p m hmm, hids k p hlk]
              · rw [correspondingEntriesRule_uid fams p mc m h1 hmm,
                  hids k p hlk]
            rw [ha2]
            exact hk mx.user_id
              (peoplePassAux_ok_mem fams ref ppl hids ks rest h3 mx hmx)

/-- **C4**: the full pipeline is deterministic — two runs of the builders
plus both validation passes on the same record sequence (and the same fixed
reference instant, captured once per run) produce identical finding lists —
and within each validation pass the engine visits entity identifiers in
ascending lexical order, so the finding subjects of each pass form an
ascending sequence, and hence so do the subjects of the findings of any
single rule (filtering by rule id preserves the order); the identifier
hypotheses state the builder invariant that each stored entity carries the
key it is stored under. -/
theorem C4_determinism_and_order :
    (∀ (ref : Date) (recs : List Record), runAll ref recs = runAll ref recs) ∧
    (∀ (ppl : List (String × PersonRec)) (fams : List (String × FamRec))
       (ms : List Finding),
       (∀ k f, alLookup fams k = some f → f.id = k) →
       Families.validate ppl fams = .ok ms →
       (ms.map Finding.user_id).Pairwise (fun a b => strLeb a b = true) ∧
       ∀ rule : String,
         (((ms.filter fun m => m.user_story == rule).map
             Finding.user_id).Pairwise (fun a b => strLeb a b = true))) ∧
    (∀ (fams : List (String × FamRec)) (ref : Date)
       (ppl : List (String × PersonRec)) (ms : List Finding),
       (∀ k p, alLookup ppl k = some p → p.id = k) →
       People.validate (some fams) ref ppl = .ok ms →
       (ms.map Finding.user_id).Pairwise (fun a b => strLeb a b = true) ∧
       ∀ rule : String,
         (((ms.filter fun m => m.user_story == rule).map
             Finding.user_id).Pairwise (fun a b => strLeb a b = true))) := by
  refine ⟨fun ref recs => rfl, ?_, ?_⟩
  · intro ppl fams ms hids hok
    have hok2 : famPassAux ppl fams (sortKeys (alKeys fams)) = .ok ms := hok
    have hpw := famPassAux_pairwise ppl fams hids _ ms
      (sortKeys_pairwise (alKeys fams)) hok2
    refine ⟨hpw, fun rule => ?_⟩
    exact List.Pairwise.sublist
      (List.Sublist.map Finding.user_id (List.filter_sublist ms)) hpw
  · intro fams ref ppl ms hids hok
    have hok2 : peoplePassAux (some fams) ref ppl (sortKeys (alKeys ppl)) =
      .ok ms := hok
    have hpw := peoplePassAux_pairwise fams ref ppl hids _ ms
      (sortKeys_pairwise (alKeys ppl)) hok2
    refine ⟨hpw, fun rule => ?_⟩
    exact List.Pairwise.sublist
      (List.Sublist.map Finding.user_id (List.filter_sublist ms)) hpw

theorem alLookup_id_consistent {α : Type} (idOf : α → String) :
    ∀ (l : List (String × α)), (∀ kv ∈ l, idOf kv.2 = kv.1) →
      ∀ k v, alLookup l k = some v → idOf v = k
  | [], _, k, v, h => by simp [alLookup] at h
  | (k0, v0) :: rest, hall, k, v, h => by
    rw [alLookup] at h
    by_cases he : k0 = k
    · rw [if_pos he] at h
      obtain rfl := Option.some.inj h
      rw [← he]
      exact hall (k0, v0) (List.mem_cons_self _ _)
    · rw [if_neg he] at h
      exact alLookup_id_consistent idOf rest
        (fun kv hkv => hall kv (List.mem_cons_of_mem _ hkv)) k v h

/-- Witness for C4 at a concrete input: two families inserted out of order
(`@F2@` before `@F1@`) validate into findings whose subjects come out in
ascending order, and a concrete two-run equality of the full pipeline. -/
theorem C4_determinism_and_order_witness :
    runAll ⟨2020, 1, 1⟩
      [⟨0, "INDI", "@I1@", "Y"⟩, ⟨0, "FAM", "@F1@", "Y"⟩] =
    runAll ⟨2020, 1, 1⟩
      [⟨0, "INDI", "@I1@", "Y"⟩, ⟨0, "FAM", "@F1@", "Y"⟩] ∧
    (([us05Finding { id := "@F1@", husband_id := some "@H1@", married_date := some ⟨2010, 1, 1⟩ } { id := "@H1@", name := "H", death_date := some ⟨2000, 1, 1⟩ },
       us05Finding { id := "@F2@", husband_id := some "@H1@", married_date := some ⟨2010, 1, 1⟩ } { id := "@H1@", name := "H", death_date := some ⟨2000, 1, 1⟩ }].map
        Finding.user_id).Pairwise (fun a b => strLeb a b = true)) :=
  ⟨C4_determinism_and_order.1 ⟨2020, 1, 1⟩
    [⟨0, "INDI", "@I1@", "Y"⟩, ⟨0, "FAM", "@F1@", "Y"⟩],
   (C4_determinism_and_order.2.1
     [("@H1@", { id := "@H1@", name := "H", death_date := some ⟨2000, 1, 1⟩ })]
     [("@F2@", { id := "@F2@", husband_id := some "@H1@", married_date := some ⟨2010, 1, 1⟩ }),
      ("@F1@", { id := "@F1@", husband_id := some "@H1@", married_date := some ⟨2010, 1, 1⟩ })]
     [us05Finding { id := "@F1@", husband_id := some "@H1@", married_date := some ⟨2010, 1, 1⟩ } { id := "@H1@", name := "H", death_date := some ⟨2000, 1, 1⟩ },
      us05Finding { id := "@F2@", husband_id := some "@H1@", married_date := some ⟨2010, 1, 1⟩ } { id := "@H1@", name := "H", death_date := some ⟨2000, 1, 1⟩ }]
     (fun k f h => alLookup_id_consistent FamRec.id
       [("@F2@", { id := "@F2@", husband_id := some "@H1@", married_date := some ⟨2010, 1, 1⟩ }),
        ("@F1@", { id := "@F1@", husband_id := some "@H1@", married_date := some ⟨2010, 1, 1⟩ })]
       (by decide) k f h) rfl).1⟩
